import Mathlib

/-!
Verification of the vizier graph/view core against its specification.

The TypeScript sources are embedded shallowly:
* `src/core/types.ts`   → the `Node`/`Edge`/`Graph`/`SessionStats` structures,
* `src/core/zoom.ts`    → `filterByZoom`, `getVisualBranch` (the variant that
  handles agent branch levels, zoom.ts lines 127-181),
* `src/core/stats.ts`   → `computeStats` over `TokenInput`,
* `src/core/graph.ts` and the claude-dialect parser (`parseEventToNodes`,
  `generateId`) → `mergeToolCalls`, `buildGraphClaude`,
* `src/sources/opencode/graph.ts` → `buildOpenCodeGraph` (file reading is
  abstracted by passing the message list and a part lookup function),
* the lane-packing `buildGraph` of the claude source → `agentSpans`,
  `packAgents`, `agentToBranch`.

JavaScript numbers holding token counts and costs are modelled as exact
numbers (`Nat`), timestamps as `Int` (epoch milliseconds).  JavaScript's
`Array.prototype.sort` is modelled by `List.insertionSort` with the same
comparator; `Map` is modelled by association lists with shadowing insert.
-/

namespace Vizier

/-- Usage record (optional token counters) as in `core/types.ts`. -/
structure Usage where
  input_tokens : Option Nat
  output_tokens : Option Nat
  cache_read_input_tokens : Option Nat
  cache_creation_input_tokens : Option Nat
  reasoning_tokens : Option Nat
deriving Repr, DecidableEq

/-- Discriminated union of node payloads, `NodeType` in `core/types.ts`. -/
inductive NodeType where
  | user (text : String)
  | assistant (text : String)
  | tool_use (name input : String)
  | tool_result (output : String) (isError : Bool)
  | tool_call (name input : String) (output : Option String) (isError : Bool)
  | agent_start (agentId agentType : String)
  | agent_end (agentId : String)
  | progress (text : String)
  | reasoning (text : String)
  | patch (files : List String) (hash : String)
deriving Repr, DecidableEq

/-- A graph node, `Node` in `core/types.ts`. -/
structure Node where
  id : String
  parentId : Option String := none
  nodeType : NodeType
  timestamp : Int
  branchLevel : Nat := 0
  agentId : Option String := none
  model : Option String := none
  usage : Option Usage := none
  source : Option String := none
  cost : Option Nat := none
  turnId : Option String := none
deriving Repr, DecidableEq

/-- Derived edge, `Edge` in `core/types.ts` (`from`/`to` are keywords in
Lean, hence `fromId`/`toId`). -/
structure Edge where
  fromId : String
  toId : String
  isBranch : Bool
deriving Repr, DecidableEq

/-- Aggregate session statistics, `SessionStats` in `core/types.ts`;
`totalCost`/`totalReasoningTokens` are optional fields. -/
structure SessionStats where
  totalInputTokens : Nat
  totalOutputTokens : Nat
  totalCacheRead : Nat
  totalCacheCreation : Nat
  model : Option String
  totalCost : Option Nat := none
  totalReasoningTokens : Option Nat := none
deriving Repr, DecidableEq

/-- The full derived graph, `Graph` in `core/types.ts`. -/
structure Graph where
  nodes : List Node
  edges : List Edge
  stats : SessionStats
deriving Repr, DecidableEq

/-! ## Zoom projector (`core/zoom.ts`, the agent-aware variant) -/

/-- The four zoom levels of `core/zoom.ts`. -/
inductive ZoomLevel where
  | sessions
  | conversations
  | details
  | focus
deriving Repr, DecidableEq

/-- Kind test used by the zoom projector switch statements. -/
def NodeType.isUser : NodeType → Bool
  | .user _ => true
  | _ => false

/-- Kind test used by the zoom projector switch statements. -/
def NodeType.isAssistant : NodeType → Bool
  | .assistant _ => true
  | _ => false

/-- Embedding of `filterByZoom` (zoom.ts lines 127-146).  Indices are kept as
`Int` because the source marks excluded entries with `-1` before filtering. -/
def filterByZoom (nodes : List Node) (level : ZoomLevel) : List Int :=
  match level with
  | .sessions =>
      if nodes.length = 0 then [] else [0, (nodes.length : Int) - 1]
  | .conversations =>
      ((nodes.enum.map (fun p =>
          if p.2.branchLevel = 0 then
            if p.2.nodeType.isUser || p.2.nodeType.isAssistant then (p.1 : Int) else -1
          else
            if p.2.nodeType.isAssistant then (p.1 : Int) else -1)).filter
        (fun i => 0 ≤ i))
  | .details => nodes.enum.map (fun p => (p.1 : Int))
  | .focus => nodes.enum.map (fun p => (p.1 : Int))

/-- Embedding of `getVisualBranch` (zoom.ts lines 148-181). -/
def getVisualBranch (node : Node) (level : ZoomLevel) : Int :=
  match level with
  | .conversations =>
      if node.branchLevel > 0 then
        if node.nodeType.isAssistant then 2 + (node.branchLevel : Int) else -1
      else
        match node.nodeType with
        | .user _ => 0
        | .assistant _ => 1
        | _ => 2
  | .details | .focus =>
      if node.branchLevel > 0 then
        let base : Int := 3 + ((node.branchLevel : Int) - 1) * 2
        if node.nodeType.isAssistant then base else base + 1
      else
        match node.nodeType with
        | .user _ => 0
        | .assistant _ => 1
        | _ => 2
  | .sessions => 0

/-- Row map described by the specification for the `details`/`focus` levels:
main-line user/assistant rows 0/1, other main-line nodes row 2, and agents at
branch level `b ≥ 1` get the row pair `3 + (b-1)*2` (assistant) and
`3 + (b-1)*2 + 1` (everything else). -/
def rowSpecDetails (node : Node) : Int :=
  if node.branchLevel = 0 then
    match node.nodeType with
    | .user _ => 0
    | .assistant _ => 1
    | _ => 2
  else
    if node.nodeType.isAssistant then
      3 + ((node.branchLevel : Int) - 1) * 2
    else
      3 + ((node.branchLevel : Int) - 1) * 2 + 1

/-- C7: at the `details` and `focus` zoom levels `getVisualBranch` realises
exactly the row map of the specification (main-line user 0 / assistant 1 /
other 2, agent level `b ≥ 1` rows `3+(b-1)*2` and `3+(b-1)*2+1`), and in
particular every node's row at `details` equals its row at `focus`. -/
theorem getVisualBranch_details_focus (n : Node) :
    getVisualBranch n .details = rowSpecDetails n ∧
    getVisualBranch n .focus = rowSpecDetails n := by
  cases hb : n.branchLevel with
  | zero =>
      cases hk : n.nodeType <;>
        simp [getVisualBranch, rowSpecDetails, hb, hk, NodeType.isAssistant]
  | succ k =>
      cases hk : n.nodeType <;>
        simp [getVisualBranch, rowSpecDetails, hb, hk, NodeType.isAssistant]

/-- C10: at the `sessions` zoom level a one-node graph projects to the
two-element index list `[0, 0]` (first and last coincide), and an empty node
list projects to the empty list. -/
theorem filterByZoom_sessions_singleton :
    (∀ n : Node, filterByZoom [n] .sessions = [0, 0]) ∧
    filterByZoom ([] : List Node) .sessions = [] := by
  constructor
  · intro n
    simp [filterByZoom]
  · simp [filterByZoom]

/-! ## Stats aggregator (`core/stats.ts`) -/

/-- Input items of the stats fold, `TokenInput` in `core/stats.ts`. -/
structure TokenInput where
  usage : Option Usage := none
  model : Option String := none
  cost : Option Nat := none
deriving Repr, DecidableEq

/-- The mutable accumulator of `computeStats` (its seven local variables). -/
structure StatsAcc where
  totalInputTokens : Nat
  totalOutputTokens : Nat
  totalCacheRead : Nat
  totalCacheCreation : Nat
  totalReasoningTokens : Nat
  totalCost : Nat
  model : Option String
deriving Repr, DecidableEq

/-- Initial accumulator values of `computeStats`. -/
def statsInit : StatsAcc :=
  { totalInputTokens := 0, totalOutputTokens := 0, totalCacheRead := 0,
    totalCacheCreation := 0, totalReasoningTokens := 0, totalCost := 0,
    model := none }

/-- One iteration of the `computeStats` loop (stats.ts lines 18-29).  JS
truthiness of `item.cost` skips both the absent and the zero cost; truthiness
of `item.model` skips the absent and the empty model string. -/
def statsStep (acc : StatsAcc) (item : TokenInput) : StatsAcc :=
  let acc :=
    match item.usage with
    | some u =>
        { acc with
          totalInputTokens := acc.totalInputTokens + u.input_tokens.getD 0,
          totalOutputTokens := acc.totalOutputTokens + u.output_tokens.getD 0,
          totalCacheRead := acc.totalCacheRead + u.cache_read_input_tokens.getD 0,
          totalCacheCreation := acc.totalCacheCreation + u.cache_creation_input_tokens.getD 0,
          totalReasoningTokens := acc.totalReasoningTokens + u.reasoning_tokens.getD 0 }
    | none => acc
  let acc :=
    match item.cost with
    | some c => if c ≠ 0 then { acc with totalCost := acc.totalCost + c } else acc
    | none => acc
  match item.model with
  | some m => if m ≠ "" then { acc with model := some m } else acc
  | none => acc

/-- Embedding of `computeStats` (stats.ts lines 9-40): fold the items, then
report `totalCost`/`totalReasoningTokens` only when nonzero (`x || undefined`). -/
def computeStats (items : List TokenInput) : SessionStats :=
  let acc := items.foldl statsStep statsInit
  { totalInputTokens := acc.totalInputTokens,
    totalOutputTokens := acc.totalOutputTokens,
    totalCacheRead := acc.totalCacheRead,
    totalCacheCreation := acc.totalCacheCreation,
    model := acc.model,
    totalCost := if acc.totalCost = 0 then none else some acc.totalCost,
    totalReasoningTokens :=
      if acc.totalReasoningTokens = 0 then none else some acc.totalReasoningTokens }

/-- Embedding of `emptyStats` (stats.ts lines 42-50). -/
def emptyStats : SessionStats :=
  { totalInputTokens := 0, totalOutputTokens := 0, totalCacheRead := 0,
    totalCacheCreation := 0, model := none }

/-- Per-item contribution to `totalInputTokens`. -/
def inContrib (i : TokenInput) : Nat :=
  match i.usage with
  | some u => u.input_tokens.getD 0
  | none => 0

/-- Per-item contribution to `totalOutputTokens`. -/
def outContrib (i : TokenInput) : Nat :=
  match i.usage with
  | some u => u.output_tokens.getD 0
  | none => 0

/-- Per-item contribution to `totalCacheRead`. -/
def cacheReadContrib (i : TokenInput) : Nat :=
  match i.usage with
  | some u => u.cache_read_input_tokens.getD 0
  | none => 0

/-- Per-item contribution to `totalCacheCreation`. -/
def cacheCreationContrib (i : TokenInput) : Nat :=
  match i.usage with
  | some u => u.cache_creation_input_tokens.getD 0
  | none => 0

/-- Per-item contribution to `totalReasoningTokens`. -/
def reasoningContrib (i : TokenInput) : Nat :=
  match i.usage with
  | some u => u.reasoning_tokens.getD 0
  | none => 0

/-- Per-item contribution to `totalCost`. -/
def costContrib (i : TokenInput) : Nat := i.cost.getD 0

/-- Fold sum of the reasoning-token field over the input set. -/
def reasoningSum (l : List TokenInput) : Nat := (l.map reasoningContrib).sum

/-- Fold sum of the cost field over the input set. -/
def costSum (l : List TokenInput) : Nat := (l.map costContrib).sum

lemma statsStep_fields (acc : StatsAcc) (i : TokenInput) :
    (statsStep acc i).totalInputTokens = acc.totalInputTokens + inContrib i ∧
    (statsStep acc i).totalOutputTokens = acc.totalOutputTokens + outContrib i ∧
    (statsStep acc i).totalCacheRead = acc.totalCacheRead + cacheReadContrib i ∧
    (statsStep acc i).totalCacheCreation = acc.totalCacheCreation + cacheCreationContrib i ∧
    (statsStep acc i).totalReasoningTokens = acc.totalReasoningTokens + reasoningContrib i ∧
    (statsStep acc i).totalCost = acc.totalCost + costContrib i := by
  obtain ⟨u, m, c⟩ := i
  cases u <;> cases m <;> cases c <;>
    simp only [statsStep] <;>
    (try split_ifs) <;>
    simp_all [inContrib, outContrib, cacheReadContrib, cacheCreationContrib,
      reasoningContrib, costContrib]

lemma statsFold_fields (l : List TokenInput) (acc : StatsAcc) :
    (l.foldl statsStep acc).totalInputTokens
        = acc.totalInputTokens + (l.map inContrib).sum ∧
    (l.foldl statsStep acc).totalOutputTokens
        = acc.totalOutputTokens + (l.map outContrib).sum ∧
    (l.foldl statsStep acc).totalCacheRead
        = acc.totalCacheRead + (l.map cacheReadContrib).sum ∧
    (l.foldl statsStep acc).totalCacheCreation
        = acc.totalCacheCreation + (l.map cacheCreationContrib).sum ∧
    (l.foldl statsStep acc).totalReasoningTokens
        = acc.totalReasoningTokens + (l.map reasoningContrib).sum ∧
    (l.foldl statsStep acc).totalCost
        = acc.totalCost + (l.map costContrib).sum := by
  induction l generalizing acc with
  | nil => simp
  | cons i rest ih =>
      obtain ⟨h1, h2, h3, h4, h5, h6⟩ := ih (statsStep acc i)
      obtain ⟨g1, g2, g3, g4, g5, g6⟩ := statsStep_fields acc i
      refine ⟨?_, ?_, ?_, ?_, ?_, ?_⟩ <;>
        simp [h1, h2, h3, h4, h5, h6, g1, g2, g3, g4, g5, g6] <;> omega

/-- C5: stats aggregation is a commutative fold — every token-sum field of
`computeStats` is invariant under permutation of the input set;
`totalCost`/`totalReasoningTokens` are absent exactly when their fold sum is
zero and carry the (nonzero) sum otherwise; the four plain token counters are
plain naturals that are `0` on the empty input. -/
theorem computeStats_commutative_fold :
    (∀ l₁ l₂ : List TokenInput, l₁.Perm l₂ →
        (computeStats l₁).totalInputTokens = (computeStats l₂).totalInputTokens ∧
        (computeStats l₁).totalOutputTokens = (computeStats l₂).totalOutputTokens ∧
        (computeStats l₁).totalCacheRead = (computeStats l₂).totalCacheRead ∧
        (computeStats l₁).totalCacheCreation = (computeStats l₂).totalCacheCreation ∧
        (computeStats l₁).totalCost = (computeStats l₂).totalCost ∧
        (computeStats l₁).totalReasoningTokens = (computeStats l₂).totalReasoningTokens) ∧
    (∀ l, (computeStats l).totalCost = none ↔ costSum l = 0) ∧
    (∀ l, costSum l ≠ 0 → (computeStats l).totalCost = some (costSum l)) ∧
    (∀ l, (computeStats l).totalReasoningTokens = none ↔ reasoningSum l = 0) ∧
    (∀ l, reasoningSum l ≠ 0 →
        (computeStats l).totalReasoningTokens = some (reasoningSum l)) ∧
    ((computeStats []).totalInputTokens = 0 ∧
      (computeStats []).totalOutputTokens = 0 ∧
      (computeStats []).totalCacheRead = 0 ∧
      (computeStats []).totalCacheCreation = 0) := by
  have hfold : ∀ l : List TokenInput,
      (computeStats l).totalInputTokens = (l.map inContrib).sum ∧
      (computeStats l).totalOutputTokens = (l.map outContrib).sum ∧
      (computeStats l).totalCacheRead = (l.map cacheReadContrib).sum ∧
      (computeStats l).totalCacheCreation = (l.map cacheCreationContrib).sum ∧
      (computeStats l).totalCost
          = (if costSum l = 0 then none else some (costSum l)) ∧
      (computeStats l).totalReasoningTokens
          = (if reasoningSum l = 0 then none else some (reasoningSum l)) := by
    intro l
    obtain ⟨h1, h2, h3, h4, h5, h6⟩ := statsFold_fields l statsInit
    refine ⟨?_, ?_, ?_, ?_, ?_, ?_⟩ <;>
      simp [computeStats, statsInit, costSum, reasoningSum] at * <;>
      simp [h1, h2, h3, h4, h5, h6]
  refine ⟨?_, ?_, ?_, ?_, ?_, ?_⟩
  · intro l₁ l₂ hp
    obtain ⟨a1, a2, a3, a4, a5, a6⟩ := hfold l₁
    obtain ⟨b1, b2, b3, b4, b5, b6⟩ := hfold l₂
    have hin := (hp.map inContrib).sum_eq
    have hout := (hp.map outContrib).sum_eq
    have hcr := (hp.map cacheReadContrib).sum_eq
    have hcc := (hp.map cacheCreationContrib).sum_eq
    have hrs : reasoningSum l₁ = reasoningSum l₂ := (hp.map reasoningContrib).sum_eq
    have hcs : costSum l₁ = costSum l₂ := (hp.map costContrib).sum_eq
    exact ⟨by rw [a1, b1, hin], by rw [a2, b2, hout], by rw [a3, b3, hcr],
      by rw [a4, b4, hcc], by rw [a5, b5, hcs], by rw [a6, b6, hrs]⟩
  · intro l
    rw [(hfold l).2.2.2.2.1]
    split <;> simp_all
  · intro l h
    rw [(hfold l).2.2.2.2.1]
    simp [h]
  · intro l
    rw [(hfold l).2.2.2.2.2]
    split <;> simp_all
  · intro l h
    rw [(hfold l).2.2.2.2.2]
    simp [h]
  · exact ⟨(hfold []).1, (hfold []).2.1, (hfold []).2.2.1, (hfold []).2.2.2.1⟩

/-- Usage record of the concrete stats example. -/
def exUsage : Usage := ⟨some 1, some 2, none, none, some 3⟩

/-- First item of the concrete stats example. -/
def exItem : TokenInput := ⟨some exUsage, some "m", some 5⟩

/-- Second (empty) item of the concrete stats example. -/
def exItemEmpty : TokenInput := ⟨none, none, none⟩

/-- Concrete two-item input used to witness the stats claim. -/
def exStatsA : List TokenInput := [exItem, exItemEmpty]

/-- The same two items in the opposite order. -/
def exStatsB : List TokenInput := [exItemEmpty, exItem]

/-- Witness for C5 at a concrete permuted pair of inputs. -/
theorem computeStats_commutative_fold_witness :
    (computeStats exStatsA).totalCost = some (costSum exStatsA) ∧
    (computeStats exStatsA).totalInputTokens = (computeStats exStatsB).totalInputTokens :=
  ⟨computeStats_commutative_fold.2.2.1 exStatsA (by decide),
   (computeStats_commutative_fold.1 exStatsA exStatsB (List.Perm.swap exItemEmpty exItem [])).1⟩

/-! ## Tool-call merger (`core/graph.ts` lines 27-64)

`resultByToolId` models the first pass (a `Map` from `tool_result.parentId`
to the result node; later insertions shadow earlier ones, exactly like
`Map.set`), `mergeLoop` models the output loop together with the
`consumedResults` set, which the source populates *while* emitting. -/

/-- JS `Map.set`: the new binding shadows any earlier one for `get`. -/
def mapSet (m : List (String × Node)) (k : String) (v : Node) : List (String × Node) :=
  (k, v) :: m

/-- JS `Map.get`: the most recent binding wins. -/
def mapGet (m : List (String × Node)) (k : String) : Option Node :=
  (m.find? (fun p => p.1 == k)).map (·.2)

/-- One step of the first pass of `mergeToolCalls`: index a `tool_result`
under its `parentId`. -/
def resultStep (m : List (String × Node)) (n : Node) : List (String × Node) :=
  match n.nodeType, n.parentId with
  | .tool_result _ _, some pid => mapSet m pid n
  | _, _ => m

/-- First pass of `mergeToolCalls` (graph.ts lines 29-34). -/
def resultByToolId (nodes : List Node) : List (String × Node) :=
  nodes.foldl resultStep []

/-- Second pass of `mergeToolCalls` (graph.ts lines 36-61): `consumed` is the
`consumedResults` set, grown when a `tool_use` finds its result. -/
def mergeLoop (m : List (String × Node)) : List Node → List String → List Node
  | [], _ => []
  | n :: rest, consumed =>
    match n.nodeType with
    | .tool_use name input =>
        let result := mapGet m n.id
        let consumed' :=
          match result with
          | some r => r.id :: consumed
          | none => consumed
        { n with nodeType :=
            match result with
            | some r =>
                match r.nodeType with
                | .tool_result out err => .tool_call name input (some out) err
                | _ => .tool_call name input none false
            | none => .tool_call name input none false } :: mergeLoop m rest consumed'
    | .tool_result _ _ =>
        if consumed.contains n.id then mergeLoop m rest consumed
        else n :: mergeLoop m rest consumed
    | _ => n :: mergeLoop m rest consumed

/-- Embedding of `mergeToolCalls` (graph.ts lines 27-64). -/
def mergeToolCalls (nodes : List Node) : List Node :=
  mergeLoop (resultByToolId nodes) nodes []

/-- Specification-side description: the last `tool_result` of the input whose
`parentId` is the given tool id (the merger's map keeps the last write). -/
def lastResultFor : List Node → String → Option Node
  | [], _ => none
  | n :: rest, pid =>
    match lastResultFor rest pid with
    | some r => some r
    | none =>
        match n.nodeType, n.parentId with
        | .tool_result _ _, some q => if q = pid then some n else none
        | _, _ => none

/-- Does `u` (a `tool_use`) consume `r`, i.e. is `r` the last result whose
`parentId` is `u.id`? -/
def matchesLastFor (nodes : List Node) (r u : Node) : Bool :=
  match u.nodeType with
  | .tool_use _ _ => decide (lastResultFor nodes u.id = some r)
  | _ => false

/-- A `tool_result` is consumed when some `tool_use` of the input matches it. -/
def isConsumedIn (nodes : List Node) (r : Node) : Bool :=
  nodes.any (matchesLastFor nodes r)

/-- Specification-side per-node description of the merger, written from the
spec's words: a `tool_use` becomes a `tool_call` carrying the matched
result's output and error flag (or `output = null` when unmatched), a
consumed `tool_result` is dropped, an orphan `tool_result` and every other
node pass through unchanged. -/
def specOne (nodes : List Node) (n : Node) : Option Node :=
  match n.nodeType with
  | .tool_use name input =>
      some { n with nodeType :=
        match lastResultFor nodes n.id with
        | some r =>
            match r.nodeType with
            | .tool_result out err => .tool_call name input (some out) err
            | _ => .tool_call name input none false
        | none => .tool_call name input none false }
  | .tool_result _ _ => if isConsumedIn nodes n then none else some n
  | _ => some n

/-- Order side condition: every consumed `tool_result` is preceded in the
input by a `tool_use` that consumes it (true for timestamp-sorted logs,
where a result follows its invocation). -/
def consumedPreceded (nodes : List Node) : List Node → List Node → Bool
  | [], _ => true
  | n :: rest, pre =>
    match n.nodeType with
    | .tool_result _ _ =>
        (!(isConsumedIn nodes n) || pre.any (matchesLastFor nodes n)) &&
          consumedPreceded nodes rest (pre ++ [n])
    | _ => consumedPreceded nodes rest (pre ++ [n])

/-- The whole input satisfies the order side condition. -/
def orderOK (nodes : List Node) : Bool :=
  consumedPreceded nodes nodes []

/-- The ids the `consumedResults` set holds after the merger has processed
the prefix `pre`. -/
def consumedSpec (nodes pre : List Node) (x : String) : Prop :=
  ∃ u ∈ pre, (∃ nm inp, u.nodeType = NodeType.tool_use nm inp) ∧
    ∃ r, lastResultFor nodes u.id = some r ∧ r.id = x

lemma mapGet_foldl (l : List Node) :
    ∀ (m : List (String × Node)) (pid : String),
      mapGet (l.foldl resultStep m) pid =
        match lastResultFor l pid with
        | some r => some r
        | none => mapGet m pid := by
  induction l with
  | nil => intro m pid; simp [lastResultFor]
  | cons n rest ih =>
      intro m pid
      rw [List.foldl_cons, ih]
      cases hrest : lastResultFor rest pid with
      | some r => simp [lastResultFor, hrest]
      | none =>
          simp only [lastResultFor, hrest]
          cases hnt : n.nodeType <;> cases hp : n.parentId <;>
            simp [resultStep, hnt, hp, mapSet, mapGet, List.find?]
          case tool_result.some o e q =>
            by_cases hq : q = pid
            · have hbq : (q == pid) = true := by simp [hq]
              simp [hbq, hq]
            · have hbq : (q == pid) = false := by simp [hq]
              simp [hbq, hq]

lemma mapGet_resultByToolId (nodes : List Node) (pid : String) :
    mapGet (resultByToolId nodes) pid = lastResultFor nodes pid := by
  have h := mapGet_foldl nodes [] pid
  rw [resultByToolId, h]
  cases hlast : lastResultFor nodes pid <;> simp [mapGet]

lemma lastResultFor_spec {nodes : List Node} {pid : String} {r : Node}
    (h : lastResultFor nodes pid = some r) :
    r ∈ nodes ∧ r.parentId = some pid ∧ ∃ o e, r.nodeType = NodeType.tool_result o e := by
  induction nodes with
  | nil => simp [lastResultFor] at h
  | cons n rest ih =>
      rw [lastResultFor] at h
      cases hrest : lastResultFor rest pid with
      | some r' =>
          rw [hrest] at h
          obtain rfl : r' = r := by simpa using h
          obtain ⟨h1, h2, h3⟩ := ih hrest
          exact ⟨List.mem_cons_of_mem _ h1, h2, h3⟩
      | none =>
          rw [hrest] at h
          cases hnt : n.nodeType <;> rw [hnt] at h <;> try simp at h
          case tool_result o e =>
            cases hp : n.parentId <;> rw [hp] at h <;> simp at h
            rename_i q
            obtain ⟨hq, hnr⟩ := h
            subst hnr
            exact ⟨List.mem_cons_self _ _, by rw [hp, hq], o, e, hnt⟩

lemma consumedSpec_append_nonuse {nodes pre : List Node} {n : Node}
    (hnot : ∀ nm inp, n.nodeType ≠ NodeType.tool_use nm inp) (x : String) :
    consumedSpec nodes (pre ++ [n]) x ↔ consumedSpec nodes pre x := by
  constructor
  · rintro ⟨u, hu, ⟨nm, inp, hunt⟩, r, hlr, hrid⟩
    rcases List.mem_append.1 hu with hu' | hu'
    · exact ⟨u, hu', ⟨nm, inp, hunt⟩, r, hlr, hrid⟩
    · obtain rfl : u = n := by simpa using hu'
      exact absurd hunt (hnot nm inp)
  · rintro ⟨u, hu, hut, r, hlr, hrid⟩
    exact ⟨u, List.mem_append_left _ hu, hut, r, hlr, hrid⟩

lemma consumedSpec_append_use {nodes pre : List Node} {n : Node} {nm inp : String}
    (hnt : n.nodeType = NodeType.tool_use nm inp) (x : String) :
    consumedSpec nodes (pre ++ [n]) x ↔
      consumedSpec nodes pre x ∨ ∃ r, lastResultFor nodes n.id = some r ∧ r.id = x := by
  constructor
  · rintro ⟨u, hu, hut, r, hlr, hrid⟩
    rcases List.mem_append.1 hu with hu' | hu'
    · exact Or.inl ⟨u, hu', hut, r, hlr, hrid⟩
    · obtain rfl : u = n := by simpa using hu'
      exact Or.inr ⟨r, hlr, hrid⟩
  · rintro (⟨u, hu, hut, r, hlr, hrid⟩ | ⟨r, hlr, hrid⟩)
    · exact ⟨u, List.mem_append_left _ hu, hut, r, hlr, hrid⟩
    · exact ⟨n, List.mem_append_right _ (List.mem_singleton_self n),
        ⟨nm, inp, hnt⟩, r, hlr, hrid⟩

lemma containsIffMem {c : List String} {x : String} :
    c.contains x = true ↔ x ∈ c := by
  simp

lemma mergeLoop_eq_spec (nodes : List Node)
    (hnodup : (nodes.map Node.id).Nodup) :
    ∀ (l pre : List Node) (c : List String),
      nodes = pre ++ l →
      consumedPreceded nodes l pre = true →
      (∀ x : String, c.contains x = true ↔ consumedSpec nodes pre x) →
      mergeLoop (resultByToolId nodes) l c = l.filterMap (specOne nodes) := by
  intro l
  induction l with
  | nil =>
      intro pre c hsplit hord hc
      simp [mergeLoop]
  | cons n rest ih =>
      intro pre c hsplit hord hc
      have hsplit' : nodes = (pre ++ [n]) ++ rest := by
        rw [hsplit, List.append_assoc, List.singleton_append]
      have hnmem : n ∈ nodes := by
        rw [hsplit]; exact List.mem_append_right _ (List.mem_cons_self _ _)
      cases hnt : n.nodeType with
      | tool_use nm inp =>
          have hord' : consumedPreceded nodes rest (pre ++ [n]) = true := by
            rw [consumedPreceded, hnt] at hord; exact hord
          have hget := mapGet_resultByToolId nodes n.id
          cases hres : lastResultFor nodes n.id with
          | some r =>
              have hgr : mapGet (resultByToolId nodes) n.id = some r := by
                rw [hget, hres]
              simp only [mergeLoop, hnt, hgr, List.filterMap_cons, specOne, hres]
              refine congrArg _ (ih (pre ++ [n]) (r.id :: c) hsplit' hord' ?_)
              intro x
              rw [consumedSpec_append_use hnt x]
              simp only [List.contains_cons, Bool.or_eq_true, beq_iff_eq, hc x, hres]
              constructor
              · rintro (rfl | hx)
                · exact Or.inr ⟨r, rfl, rfl⟩
                · exact Or.inl hx
              · rintro (hx | ⟨r', hr', hr'id⟩)
                · exact Or.inr hx
                · obtain rfl : r = r' := by simpa using hr'
                  exact Or.inl hr'id.symm
          | none =>
              have hgr : mapGet (resultByToolId nodes) n.id = none := by
                rw [hget, hres]
              simp only [mergeLoop, hnt, hgr, List.filterMap_cons, specOne, hres]
              refine congrArg _ (ih (pre ++ [n]) c hsplit' hord' ?_)
              intro x
              rw [consumedSpec_append_use hnt x, hc x]
              simp [hres]
      | tool_result o e =>
          rw [consumedPreceded, hnt, Bool.and_eq_true] at hord
          obtain ⟨hord1, hord'⟩ := hord
          have hnot : ∀ nm inp, n.nodeType ≠ NodeType.tool_use nm inp := by
            intro nm inp hcontra
            rw [hnt] at hcontra
            exact NodeType.noConfusion hcontra
          have hcinv : ∀ x : String, c.contains x = true ↔
              consumedSpec nodes (pre ++ [n]) x := by
            intro x
            rw [hc x, consumedSpec_append_nonuse hnot x]
          have hcontains : c.contains n.id = isConsumedIn nodes n := by
            cases hcons : isConsumedIn nodes n with
            | true =>
                rw [hcons, Bool.not_true, Bool.false_or] at hord1
                obtain ⟨u, hu, hmatch⟩ := List.any_eq_true.1 hord1
                have hex : ∃ nm inp, u.nodeType = NodeType.tool_use nm inp ∧
                    lastResultFor nodes u.id = some n := by
                  rw [matchesLastFor] at hmatch
                  cases hut : u.nodeType <;> rw [hut] at hmatch <;> simp at hmatch
                  case tool_use a b => exact ⟨a, b, rfl, hmatch⟩
                obtain ⟨nm, inp, hut, hlr⟩ := hex
                exact (hc n.id).2 ⟨u, hu, ⟨nm, inp, hut⟩, n, hlr, rfl⟩
            | false =>
                cases h : c.contains n.id with
                | false => rfl
                | true =>
                    exfalso
                    obtain ⟨u, hu, ⟨nm, inp, hut⟩, r, hlr, hrid⟩ := (hc n.id).1 h
                    have hrmem : r ∈ nodes := (lastResultFor_spec hlr).1
                    have hrn : r = n :=
                      List.inj_on_of_nodup_map hnodup hrmem hnmem hrid
                    have hlr' : lastResultFor nodes u.id = some n := hrn ▸ hlr
                    have humem : u ∈ nodes := by
                      rw [hsplit]; exact List.mem_append_left _ hu
                    have hTrue : isConsumedIn nodes n = true :=
                      List.any_eq_true.2
                        ⟨u, humem, by rw [matchesLastFor, hut]; simp [hlr']⟩
                    rw [hcons] at hTrue
                    exact Bool.false_ne_true hTrue
          simp only [mergeLoop, hnt, List.filterMap_cons, specOne, hcontains]
          cases hcons : isConsumedIn nodes n with
          | true =>
              simp only [hcons, if_true]
              exact ih (pre ++ [n]) c hsplit' hord' hcinv
          | false =>
              simp only [hcons, if_false, Bool.false_eq_true]
              exact congrArg _ (ih (pre ++ [n]) c hsplit' hord' hcinv)
      | user t =>
          have hord' : consumedPreceded nodes rest (pre ++ [n]) = true := by
            rw [consumedPreceded, hnt] at hord; exact hord
          have hnot : ∀ nm inp, n.nodeType ≠ NodeType.tool_use nm inp := by
            intro nm inp hcontra; rw [hnt] at hcontra; exact NodeType.noConfusion hcontra
          simp only [mergeLoop, hnt, List.filterMap_cons, specOne]
          refine congrArg _ (ih (pre ++ [n]) c hsplit' hord' ?_)
          intro x
          rw [hc x, consumedSpec_append_nonuse hnot x]
      | assistant t =>
          have hord' : consumedPreceded nodes rest (pre ++ [n]) = true := by
            rw [consumedPreceded, hnt] at hord; exact hord
          have hnot : ∀ nm inp, n.nodeType ≠ NodeType.tool_use nm inp := by
            intro nm inp hcontra; rw [hnt] at hcontra; exact NodeType.noConfusion hcontra
          simp only [mergeLoop, hnt, List.filterMap_cons, specOne]
          refine congrArg _ (ih (pre ++ [n]) c hsplit' hord' ?_)
          intro x
          rw [hc x, consumedSpec_append_nonuse hnot x]
      | tool_call a b o e =>
          have hord' : consumedPreceded nodes rest (pre ++ [n]) = true := by
            rw [consumedPreceded, hnt] at hord; exact hord
          have hnot : ∀ nm inp, n.nodeType ≠ NodeType.tool_use nm inp := by
            intro nm inp hcontra; rw [hnt] at hcontra; exact NodeType.noConfusion hcontra
          simp only [mergeLoop, hnt, List.filterMap_cons, specOne]
          refine congrArg _ (ih (pre ++ [n]) c hsplit' hord' ?_)
          intro x
          rw [hc x, consumedSpec_append_nonuse hnot x]
      | agent_start a b =>
          have hord' : consumedPreceded nodes rest (pre ++ [n]) = true := by
            rw [consumedPreceded, hnt] at hord; exact hord
          have hnot : ∀ nm inp, n.nodeType ≠ NodeType.tool_use nm inp := by
            intro nm inp hcontra; rw [hnt] at hcontra; exact NodeType.noConfusion hcontra
          simp only [mergeLoop, hnt, List.filterMap_cons, specOne]
          refine congrArg _ (ih (pre ++ [n]) c hsplit' hord' ?_)
          intro x
          rw [hc x, consumedSpec_append_nonuse hnot x]
      | agent_end a =>
          have hord' : consumedPreceded nodes rest (pre ++ [n]) = true := by
            rw [consumedPreceded, hnt] at hord; exact hord
          have hnot : ∀ nm inp, n.nodeType ≠ NodeType.tool_use nm inp := by
            intro nm inp hcontra; rw [hnt] at hcontra; exact NodeType.noConfusion hcontra
          simp only [mergeLoop, hnt, List.filterMap_cons, specOne]
          refine congrArg _ (ih (pre ++ [n]) c hsplit' hord' ?_)
          intro x
          rw [hc x, consumedSpec_append_nonuse hnot x]
      | progress t =>
          have hord' : consumedPreceded nodes rest (pre ++ [n]) = true := by
            rw [consumedPreceded, hnt] at hord; exact hord
          have hnot : ∀ nm inp, n.nodeType ≠ NodeType.tool_use nm inp := by
            intro nm inp hcontra; rw [hnt] at hcontra; exact NodeType.noConfusion hcontra
          simp only [mergeLoop, hnt, List.filterMap_cons, specOne]
          refine congrArg _ (ih (pre ++ [n]) c hsplit' hord' ?_)
          intro x
          rw [hc x, consumedSpec_append_nonuse hnot x]
      | reasoning t =>
          have hord' : consumedPreceded nodes rest (pre ++ [n]) = true := by
            rw [consumedPreceded, hnt] at hord; exact hord
          have hnot : ∀ nm inp, n.nodeType ≠ NodeType.tool_use nm inp := by
            intro nm inp hcontra; rw [hnt] at hcontra; exact NodeType.noConfusion hcontra
          simp only [mergeLoop, hnt, List.filterMap_cons, specOne]
          refine congrArg _ (ih (pre ++ [n]) c hsplit' hord' ?_)
          intro x
          rw [hc x, consumedSpec_append_nonuse hnot x]
      | patch fs hsh =>
          have hord' : consumedPreceded nodes rest (pre ++ [n]) = true := by
            rw [consumedPreceded, hnt] at hord; exact hord
          have hnot : ∀ nm inp, n.nodeType ≠ NodeType.tool_use nm inp := by
            intro nm inp hcontra; rw [hnt] at hcontra; exact NodeType.noConfusion hcontra
          simp only [mergeLoop, hnt, List.filterMap_cons, specOne]
          refine congrArg _ (ih (pre ++ [n]) c hsplit' hord' ?_)
          intro x
          rw [hc x, consumedSpec_append_nonuse hnot x]

lemma mergeToolCalls_eq_filterMap (nodes : List Node)
    (hnodup : (nodes.map Node.id).Nodup) (hord : orderOK nodes = true) :
    mergeToolCalls nodes = nodes.filterMap (specOne nodes) := by
  refine mergeLoop_eq_spec nodes hnodup nodes [] [] rfl hord ?_
  intro x
  simp [consumedSpec]

/-- C2 (amended): for node lists with unique ids in which every consumed
`tool_result` appears after a `tool_use` that consumes it (true of
timestamp-sorted logs), `mergeToolCalls` is exactly the per-node map
`specOne`: a `tool_use` matched by some `tool_result` (the last one whose
`parentId` equals its id) becomes a `tool_call` with the same id, name and
input carrying that result's output and error flag and the consumed result
is dropped; an unmatched `tool_use` becomes a `tool_call` with `output =
none` and `isError = false`; a `tool_result` matched to no `tool_use` and
every other node pass through unchanged.  The order proviso is forced by the
counterexample: a consumed result placed *before* its `tool_use` is merged
and nevertheless kept. -/
theorem mergeToolCalls_merges_results (nodes : List Node)
    (hnodup : (nodes.map Node.id).Nodup) (hord : orderOK nodes = true) :
    mergeToolCalls nodes = nodes.filterMap (specOne nodes) :=
  mergeToolCalls_eq_filterMap nodes hnodup hord

/-- A `tool_result` placed before its matching `tool_use`. -/
def exC2BadResult : Node :=
  { id := "r1", parentId := some "t1",
    nodeType := NodeType.tool_result "ok" false, timestamp := 1 }

/-- The matching `tool_use`, placed after the result. -/
def exC2BadUse : Node :=
  { id := "t1", nodeType := NodeType.tool_use "read" "f", timestamp := 2 }

/-- Merger input in which the consumed result precedes its `tool_use`. -/
def exC2Bad : List Node := [exC2BadResult, exC2BadUse]

/-- C2 counterexample: on the input `[tool_result(parent t1), tool_use(t1)]`
the `tool_use` is merged into a `tool_call` carrying the result's output, yet
the consumed `tool_result` is *not* dropped — it stays in the output,
refuting the claim's "the consumed tool_result is dropped" for this input. -/
theorem mergeToolCalls_keeps_early_consumed_result :
    mergeToolCalls exC2Bad =
      [exC2BadResult,
       { exC2BadUse with nodeType := NodeType.tool_call "read" "f" (some "ok") false }] ∧
    exC2BadResult ∈ mergeToolCalls exC2Bad := by
  constructor
  · rfl
  · decide

/-- Well-ordered merger input: the `tool_use` precedes its result. -/
def exC2Good : List Node := [exC2BadUse, exC2BadResult]

/-- Witness for the amended C2 at a concrete well-ordered input. -/
theorem mergeToolCalls_merges_results_witness :
    mergeToolCalls exC2Good = exC2Good.filterMap (specOne exC2Good) :=
  mergeToolCalls_merges_results exC2Good (by decide) (by decide)

/-- C9: when two or more `tool_result` nodes share the same `parentId` equal
to one `tool_use`'s id, the merged `tool_call` takes the output and error
flag of the last such result in input order, and every earlier duplicate
`tool_result` is kept in the output as a standalone node. -/
theorem mergeToolCalls_duplicate_results (nodes : List Node)
    (hnodup : (nodes.map Node.id).Nodup) (hord : orderOK nodes = true)
    (u rL : Node) (nm inp out : String) (err : Bool)
    (hu : u ∈ nodes) (hut : u.nodeType = NodeType.tool_use nm inp)
    (hL : lastResultFor nodes u.id = some rL)
    (hrt : rL.nodeType = NodeType.tool_result out err) :
    ({ u with nodeType := NodeType.tool_call nm inp (some out) err }
        ∈ mergeToolCalls nodes) ∧
    ∀ r ∈ nodes, r.parentId = some u.id → r ≠ rL →
      (∃ o e, r.nodeType = NodeType.tool_result o e) → r ∈ mergeToolCalls nodes := by
  rw [mergeToolCalls_eq_filterMap nodes hnodup hord]
  constructor
  · refine List.mem_filterMap.2 ⟨u, hu, ?_⟩
    simp [specOne, hut, hL, hrt]
  · rintro r hr hpid hne ⟨o, e, hrt'⟩
    refine List.mem_filterMap.2 ⟨r, hr, ?_⟩
    have hcons : isConsumedIn nodes r = false := by
      cases hci : isConsumedIn nodes r with
      | false => rfl
      | true =>
          exfalso
          obtain ⟨u', hu', hmatch⟩ := List.any_eq_true.1 hci
          rw [matchesLastFor] at hmatch
          cases hu't : u'.nodeType <;> rw [hu't] at hmatch <;> simp at hmatch
          have hparent : r.parentId = some u'.id := (lastResultFor_spec hmatch).2.1
          have hid : u'.id = u.id := by
            rw [hparent] at hpid
            exact Option.some_injective _ hpid
          have hequ : u' = u := List.inj_on_of_nodup_map hnodup hu' hu hid
          rw [hequ, hL] at hmatch
          exact hne (Option.some_injective _ hmatch).symm
    simp [specOne, hrt', hcons]

/-- The `tool_use` of the duplicate-result example. -/
def exC9U : Node := { id := "t1", nodeType := NodeType.tool_use "read" "f", timestamp := 0 }

/-- First (earlier) duplicate result of the duplicate-result example. -/
def exC9R1 : Node :=
  { id := "r1", parentId := some "t1",
    nodeType := NodeType.tool_result "first" false, timestamp := 1 }

/-- Second (last) duplicate result of the duplicate-result example. -/
def exC9R2 : Node :=
  { id := "r2", parentId := some "t1",
    nodeType := NodeType.tool_result "second" true, timestamp := 2 }

/-- Merger input with two results for the same `tool_use`. -/
def exC9 : List Node := [exC9U, exC9R1, exC9R2]

/-- Witness for C9: the call merges the last result's output and the earlier
duplicate is kept. -/
theorem mergeToolCalls_duplicate_results_witness :
    ({ exC9U with nodeType := NodeType.tool_call "read" "f" (some "second") true }
        ∈ mergeToolCalls exC9) ∧
    exC9R1 ∈ mergeToolCalls exC9 := by
  have h := mergeToolCalls_duplicate_results exC9 (by decide) (by decide)
    exC9U exC9R2 "read" "f" "second" true (by decide) rfl (by decide) rfl
  exact ⟨h.1, h.2 exC9R1 (by decide) (by decide) (by decide) ⟨"first", false, rfl⟩⟩

/-! ## Single-log (claude) dialect: parser and graph assembly

`parseEventToNodes` embeds the parser of the claude source (watcher.ts lines
114-237); the module-level `counter` behind `generateId` is made explicit:
the parser takes the counter value and returns the updated one.  Raw message
`content` (a string or an array of blocks in JSON) is embedded as `Content`;
tool-use inputs are carried in their JSON-stringified form. -/

/-- A content block of a raw chronological entry. -/
inductive ContentBlock where
  | textBlock (text : String)
  | toolUseBlock (id name input : String)
  | toolResultBlock (tool_use_id : String) (content : Option String) (is_error : Bool)
  | otherBlock
deriving Repr, DecidableEq

/-- The `content` field of a raw message: a plain string, an array of blocks,
or anything else. -/
inductive Content where
  | str (s : String)
  | blocks (bs : List ContentBlock)
  | otherContent
deriving Repr, DecidableEq

/-- The `message` field of a session event. -/
structure Message where
  role : String
  content : Content
  model : Option String := none
  usage : Option Usage := none
deriving Repr, DecidableEq

/-- The `data` field of progress events. -/
structure ProgressData where
  agentId : Option String := none
  type : Option String := none
deriving Repr, DecidableEq

/-- A raw JSONL session event (`SessionEvent` in `core/types.ts`); the ISO
timestamp string is embedded as its epoch-millisecond value. -/
structure SessionEvent where
  uuid : Option String := none
  parentUuid : Option String := none
  agentId : Option String := none
  type : String
  message : Option Message := none
  timestamp : Int
  data : Option ProgressData := none
  parentToolUseID : Option String := none
deriving Repr, DecidableEq

/-- Embedding of `extractTextContent` (watcher.ts lines 200-207). -/
def extractTextContent : Content → String
  | .str s => s
  | .blocks bs =>
      String.intercalate " "
        (bs.filterMap (fun b =>
          match b with
          | .textBlock t => some t
          | _ => none))
  | .otherContent => ""

/-- Embedding of `extractToolUses` (watcher.ts lines 210-222):
`[toolId, name, prettyInput]` triples, `none` when there are none. -/
def extractToolUses : Content → Option (List (String × String × String))
  | .blocks bs =>
      let tools := bs.filterMap (fun b =>
        match b with
        | .toolUseBlock i n inp => some (i, n, inp)
        | _ => none)
      if tools.length > 0 then some tools else none
  | _ => none

/-- Embedding of `extractToolResults` (watcher.ts lines 225-237):
`[toolUseId, output, isError]` triples; a non-string result content is
reported as `""`. -/
def extractToolResults : Content → Option (List (String × String × Bool))
  | .blocks bs =>
      let results := bs.filterMap (fun b =>
        match b with
        | .toolResultBlock tid c e => some (tid, c.getD "", e)
        | _ => none)
      if results.length > 0 then some results else none
  | _ => none

/-- The node-building body of `parseEventToNodes`, once the `uuid` has been
fixed (watcher.ts lines 119-198). -/
def parseWithUuid (uuid : String) (event : SessionEvent) : List Node :=
  let ts := event.timestamp
  match event.message with
  | none => []
  | some msg =>
      (if msg.role = "user" then
        match extractToolResults msg.content with
        | some results =>
            results.enum.map (fun p =>
              { id := uuid ++ ":" ++ toString p.1,
                parentId := some p.2.1,
                nodeType := NodeType.tool_result p.2.2.1 p.2.2.2,
                timestamp := ts, branchLevel := 0, agentId := event.agentId })
        | none =>
            let text := extractTextContent msg.content
            if text ≠ "" then
              [{ id := uuid, parentId := event.parentUuid,
                 nodeType := NodeType.user text, timestamp := ts,
                 branchLevel := 0, agentId := event.agentId }]
            else []
      else []) ++
      (if msg.role = "assistant" then
        let text := extractTextContent msg.content
        let hasTextNode := text.length > 0
        let textNodes : List Node :=
          if hasTextNode then
            [{ id := uuid, parentId := event.parentUuid,
               nodeType := NodeType.assistant text, timestamp := ts,
               branchLevel := 0, agentId := event.agentId,
               model := msg.model, usage := msg.usage }]
          else []
        let useNodes : List Node :=
          match extractToolUses msg.content with
          | some tools =>
              let toolParent := if hasTextNode then some uuid else event.parentUuid
              tools.map (fun t =>
                { id := t.1, parentId := toolParent,
                  nodeType := NodeType.tool_use t.2.1 t.2.2,
                  timestamp := ts, branchLevel := 0, agentId := event.agentId,
                  model := msg.model, usage := msg.usage })
          | none => []
        textNodes ++ useNodes
      else [])

/-- Embedding of `parseEventToNodes` with the `generateId` counter made
explicit: `const uuid = event.uuid || generateId()` falls back to
`generated-<counter>` (and bumps the counter) when `uuid` is absent or
empty. -/
def parseEventToNodes (c : Nat) (event : SessionEvent) : List Node × Nat :=
  match event.uuid with
  | some s =>
      if s = "" then (parseWithUuid ("generated-" ++ toString c) event, c + 1)
      else (parseWithUuid s event, c)
  | none => (parseWithUuid ("generated-" ++ toString c) event, c + 1)

/-- `events.flatMap(parseEventToNodes)` with the counter threaded through. -/
def flatParse : List SessionEvent → Nat → List Node × Nat
  | [], c => ([], c)
  | e :: rest, c =>
      let p := parseEventToNodes c e
      let q := flatParse rest p.2
      (p.1 ++ q.1, q.2)

/-- Comparator of the assembler's timestamp sort. -/
def nodeLe (a b : Node) : Prop := a.timestamp ≤ b.timestamp

instance : DecidableRel nodeLe := fun a b => Int.decLe a.timestamp b.timestamp

instance : IsTotal Node nodeLe := ⟨fun a b => Int.le_total a.timestamp b.timestamp⟩

instance : IsTrans Node nodeLe := ⟨fun _ _ _ h₁ h₂ => Int.le_trans h₁ h₂⟩

/-- Embedding of `computeStats` of `core/graph.ts` (lines 4-22): four token
counters and a last-write-wins model, all guarded by the presence of
`message.usage`. -/
def statsStepClaude (acc : StatsAcc) (e : SessionEvent) : StatsAcc :=
  match e.message with
  | none => acc
  | some msg =>
      match msg.usage with
      | none => acc
      | some u =>
          let acc :=
            { acc with
              totalInputTokens := acc.totalInputTokens + u.input_tokens.getD 0,
              totalOutputTokens := acc.totalOutputTokens + u.output_tokens.getD 0,
              totalCacheRead := acc.totalCacheRead + u.cache_read_input_tokens.getD 0,
              totalCacheCreation :=
                acc.totalCacheCreation + u.cache_creation_input_tokens.getD 0 }
          match msg.model with
          | some m => if m ≠ "" then { acc with model := some m } else acc
          | none => acc

/-- The stats fold of `core/graph.ts`. -/
def computeStatsClaude (events : List SessionEvent) : SessionStats :=
  let acc := events.foldl statsStepClaude statsInit
  { totalInputTokens := acc.totalInputTokens,
    totalOutputTokens := acc.totalOutputTokens,
    totalCacheRead := acc.totalCacheRead,
    totalCacheCreation := acc.totalCacheCreation,
    model := acc.model }

/-- Embedding of `buildGraph` of `core/graph.ts` (lines 66-82): parse, sort
by timestamp, merge tool calls, derive edges, aggregate stats.  The returned
`Nat` is the updated `generateId` counter. -/
def buildGraphClaude (events : List SessionEvent) (c : Nat) : Graph × Nat :=
  let parsed := flatParse events c
  let sorted := List.insertionSort nodeLe parsed.1
  let nodes := mergeToolCalls sorted
  let edges := nodes.filterMap (fun n =>
    match n.parentId with
    | some p => some { fromId := p, toId := n.id, isBranch := decide (n.branchLevel > 0) }
    | none => none)
  ({ nodes := nodes, edges := edges, stats := computeStatsClaude events }, parsed.2)

lemma mergeLoop_timestamps (m : List (String × Node)) :
    ∀ (l : List Node) (c : List String),
      ((mergeLoop m l c).map Node.timestamp).Sublist (l.map Node.timestamp) := by
  intro l
  induction l with
  | nil => intro c; simp [mergeLoop]
  | cons n rest ih =>
      intro c
      cases hnt : n.nodeType <;> simp only [mergeLoop, hnt, List.map_cons]
      case tool_result o e =>
        cases hcb : c.contains n.id
        · simp only [hcb, Bool.false_eq_true, if_false, List.map_cons]
          exact List.Sublist.cons₂ _ (ih _)
        · simp only [hcb, if_true]
          exact (ih _).cons _
      all_goals exact List.Sublist.cons₂ _ (ih _)

/-- C1 (amended): in the single-log dialect the assembler's output node
sequence is sorted by non-decreasing timestamp for every input event list
and counter state (the merger replaces or drops nodes in place, so the sort
survives it).  The part-store dialect does not share this property — see the
counterexample, its builder emits in turn/part order without a final sort. -/
theorem buildGraphClaude_nodes_sorted (events : List SessionEvent) (c : Nat) :
    List.Pairwise (fun a b : Node => a.timestamp ≤ b.timestamp)
      ((buildGraphClaude events c).1.nodes) := by
  have hsorted : List.Pairwise nodeLe
      (List.insertionSort nodeLe (flatParse events c).1) :=
    List.sorted_insertionSort nodeLe _
  have hmap : List.Pairwise (fun x y : Int => x ≤ y)
      ((List.insertionSort nodeLe (flatParse events c).1).map Node.timestamp) :=
    List.pairwise_map.2 hsorted
  have hsub := mergeLoop_timestamps
    (resultByToolId (List.insertionSort nodeLe (flatParse events c).1))
    (List.insertionSort nodeLe (flatParse events c).1) []
  have := List.pairwise_map.1 (List.Pairwise.sublist hsub hmap)
  simpa [buildGraphClaude, mergeToolCalls] using this

/-- Does the event carry a usable (non-empty) uuid, so that `generateId` is
not consulted? -/
def uuidPresentB (e : SessionEvent) : Bool :=
  match e.uuid with
  | some s => s != ""
  | none => false

lemma flatParse_counter_indep :
    ∀ (events : List SessionEvent),
      (∀ e ∈ events, uuidPresentB e = true) →
      ∀ c c' : Nat, (flatParse events c).1 = (flatParse events c').1 := by
  intro events
  induction events with
  | nil => intro _ c c'; rfl
  | cons e rest ih =>
      intro h c c'
      have he := h e (List.mem_cons_self _ _)
      cases hu : e.uuid with
      | none => rw [uuidPresentB, hu] at he; exact absurd he (by simp)
      | some s =>
          have hs : ¬s = "" := by
            rw [uuidPresentB, hu] at he; simpa using he
          have h1 : parseEventToNodes c e = (parseWithUuid s e, c) := by
            simp [parseEventToNodes, hu, hs]
          have h2 : parseEventToNodes c' e = (parseWithUuid s e, c') := by
            simp [parseEventToNodes, hu, hs]
          simp [flatParse, h1, h2,
            ih (fun x hx => h x (List.mem_cons_of_mem _ hx)) c c']

/-- C6 (amended): graph construction is deterministic in the inputs and the
`generateId` counter state: whenever every event carries a non-empty uuid
(in particular for the empty event set, vacuously), building with any two
counter states — hence also building twice in a row — yields identical
graphs.  Unrestricted idempotence fails: the module-level counter leaks
across builds when an event lacks a uuid (see the counterexample). -/
theorem buildGraphClaude_deterministic (events : List SessionEvent) (c c' : Nat)
    (h : ∀ e ∈ events, uuidPresentB e = true) :
    (buildGraphClaude events c).1 = (buildGraphClaude events c').1 := by
  have hflat := flatParse_counter_indep events h c c'
  simp only [buildGraphClaude, hflat]

/-- Witness for the amended C6: a one-event log with a uuid builds the same
graph from two different counter states. -/
theorem buildGraphClaude_deterministic_witness :
    (buildGraphClaude
        [{ uuid := some "u1", type := "user",
           message := some { role := "user", content := Content.str "hi" },
           timestamp := 0 }] 0).1 =
      (buildGraphClaude
        [{ uuid := some "u1", type := "user",
           message := some { role := "user", content := Content.str "hi" },
           timestamp := 0 }] 7).1 :=
  buildGraphClaude_deterministic _ 0 7 (by decide)

/-- One user event with no uuid at all. -/
def exC6 : SessionEvent :=
  { uuid := none, type := "user",
    message := some { role := "user", content := Content.str "hi" },
    timestamp := 0 }

/-- C6 counterexample: building the same one-event log twice in a row (the
second build starts from the counter the first one left behind) yields
different graphs — the synthesized node id changes from `generated-0` to
`generated-1`. -/
theorem buildGraphClaude_not_idempotent :
    (buildGraphClaude [exC6] 0).1 ≠
      (buildGraphClaude [exC6] ((buildGraphClaude [exC6] 0).2)).1 := by
  decide

/-! ## Message/part-store (opencode) dialect (`sources/opencode/graph.ts`)

`buildOpenCodeGraph` reads messages and parts from disk through
`readMessages`/`readParts`; the embedding abstracts the reader as the
message list and a part-lookup function.  The nested loops with the mutable
`prevNodeId` become the `emitParts`/`emitAssistants`/`emitTurn`/`emitTurns`
chain, each threading the previous emitted node id. -/

/-- Cache token counters of an opencode message. -/
structure OCCache where
  read : Nat
  write : Nat
deriving Repr, DecidableEq

/-- Token counters of an opencode message. -/
structure OCTokens where
  input : Nat
  output : Nat
  reasoning : Option Nat := none
  cache : Option OCCache := none
deriving Repr, DecidableEq

/-- The `model` object of an opencode message. -/
structure OCModelRef where
  providerID : String
  modelID : String
deriving Repr, DecidableEq

/-- Creation/completion times of an opencode message. -/
structure OCTime where
  created : Int
  completed : Option Int := none
deriving Repr, DecidableEq

/-- An opencode message record (`OCMessage` in `reader.ts`). -/
structure OCMessage where
  id : String
  sessionID : String := ""
  role : String
  time : OCTime
  parentID : Option String := none
  modelID : Option String := none
  cost : Option Nat := none
  tokens : Option OCTokens := none
  model : Option OCModelRef := none
deriving Repr, DecidableEq

/-- Start/end times of a tool state (`OCToolState.time`). -/
structure OCToolTime where
  start : Int
  stop : Int
deriving Repr, DecidableEq

/-- Tool state of a tool part (`OCToolState` in `reader.ts`); the raw input
record is carried in its JSON-stringified form. -/
structure OCToolState where
  status : String
  input : Option String := none
  output : Option String := none
  error : Option String := none
  time : Option OCToolTime := none
deriving Repr, DecidableEq

/-- Optional timing of a (reasoning/text) part (`OCPart.time`). -/
structure OCPartTime where
  start : Option Int := none
  stop : Option Int := none
deriving Repr, DecidableEq

/-- An opencode part record (`OCPart` in `reader.ts`). -/
structure OCPart where
  id : String
  sessionID : String := ""
  messageID : String := ""
  type : String
  text : Option String := none
  tool : Option String := none
  state : Option OCToolState := none
  hash : Option String := none
  files : Option (List String) := none
  time : Option OCPartTime := none
deriving Repr, DecidableEq

/-- Embedding of `mapTokens` (opencode graph.ts lines 232-242). -/
def mapTokens (msg : OCMessage) : Option Usage :=
  match msg.tokens with
  | none => none
  | some t =>
      some { input_tokens := some t.input,
             output_tokens := some t.output,
             cache_read_input_tokens := some ((t.cache.map OCCache.read).getD 0),
             cache_creation_input_tokens := some ((t.cache.map OCCache.write).getD 0),
             reasoning_tokens := some (t.reasoning.getD 0) }

/-- Embedding of `getModelId` (`msg.modelID ?? msg.model?.modelID`). -/
def getModelId (msg : OCMessage) : Option String :=
  match msg.modelID with
  | some m => some m
  | none => msg.model.map OCModelRef.modelID

/-- Comparator of `sortParts`: ascending part id, lexicographic on the
characters (`String.le` agrees with this by `String.le_iff_toList_le`; the
character-list form keeps the order computable by the kernel). -/
def ocPartLe (a b : OCPart) : Prop := a.id.data ≤ b.id.data

instance : DecidableRel ocPartLe :=
  fun a b => inferInstanceAs (Decidable (a.id.data ≤ b.id.data))

instance : IsTotal OCPart ocPartLe := ⟨fun a b => le_total a.id.data b.id.data⟩

instance : IsTrans OCPart ocPartLe := ⟨fun _ _ _ h₁ h₂ => le_trans h₁ h₂⟩

/-- Strict version of the part-id order, used to show sorting is canonical.  -/
def ocPartLt (a b : OCPart) : Prop := a.id.data < b.id.data

instance : IsAntisymm OCPart ocPartLt := ⟨fun _ _ h₁ h₂ => (lt_asymm h₁ h₂).elim⟩

/-- JS `String.prototype.trim`, modelled on the character list (Lean's own
`String.trim` is not kernel-computable). -/
def jsTrim (s : String) : String :=
  String.mk (((s.data.dropWhile Char.isWhitespace).reverse.dropWhile
    Char.isWhitespace).reverse)

/-- Embedding of `sortParts` (opencode graph.ts lines 249-251). -/
def sortParts (parts : List OCPart) : List OCPart :=
  List.insertionSort ocPartLe parts

/-- Comparator of the message sorts: ascending creation time. -/
def ocMsgLe (a b : OCMessage) : Prop := a.time.created ≤ b.time.created

instance : DecidableRel ocMsgLe :=
  fun a b => Int.decLe a.time.created b.time.created

instance : IsTotal OCMessage ocMsgLe :=
  ⟨fun a b => Int.le_total a.time.created b.time.created⟩

instance : IsTrans OCMessage ocMsgLe := ⟨fun _ _ _ h₁ h₂ => Int.le_trans h₁ h₂⟩

/-- Metadata parts skipped by the assistant-part loop (graph.ts line 326). -/
def isMetaPart (p : OCPart) : Bool :=
  p.type == "step-start" || p.type == "step-finish" ||
    p.type == "snapshot" || p.type == "compaction"

/-- The if/else chain converting one assistant part into at most one node
(graph.ts lines 330-389); `prev` is the current `prevNodeId`. -/
def partToNode (prev : Option String) (turnId : String) (asst : OCMessage)
    (p : OCPart) : Option Node :=
  let usage := mapTokens asst
  let model := getModelId asst
  let cost := asst.cost
  if p.type = "text" then
    match p.text with
    | some t =>
        if t ≠ "" then
          some { id := p.id, parentId := prev, nodeType := NodeType.assistant t,
                 timestamp := (p.time.bind OCPartTime.start).getD asst.time.created,
                 branchLevel := 0, model := model, usage := usage,
                 source := some "opencode", cost := cost, turnId := some turnId }
        else none
    | none => none
  else if p.type = "reasoning" then
    match p.text with
    | some t =>
        if t ≠ "" then
          some { id := p.id, parentId := prev, nodeType := NodeType.reasoning t,
                 timestamp := (p.time.bind OCPartTime.start).getD asst.time.created,
                 branchLevel := 0, model := model,
                 source := some "opencode", turnId := some turnId }
        else none
    | none => none
  else if p.type = "tool" then
    match p.tool, p.state with
    | some toolName, some st =>
        if toolName ≠ "" then
          let inp := match st.input with
            | some s => s
            | none => "\x7b\x7d"
          let outp := if st.status = "error" then some (st.error.getD "Unknown error")
            else st.output
          some { id := p.id, parentId := prev,
                 nodeType := NodeType.tool_call toolName inp outp
                   (decide (st.status = "error")),
                 timestamp := (st.time.map OCToolTime.start).getD asst.time.created,
                 branchLevel := 0, model := model, usage := usage,
                 source := some "opencode", cost := cost, turnId := some turnId }
        else none
    | _, _ => none
  else if p.type = "patch" then
    match p.files, p.hash with
    | some fs, some h =>
        if h ≠ "" then
          some { id := p.id, parentId := prev, nodeType := NodeType.patch fs h,
                 timestamp := asst.time.created, branchLevel := 0,
                 source := some "opencode", turnId := some turnId }
        else none
    | _, _ => none
  else none

/-- The per-assistant part loop (graph.ts lines 324-395): skip metadata
parts, convert the rest, thread `prevNodeId`. -/
def emitParts (asst : OCMessage) (turnId : String) :
    List OCPart → Option String → List Node × Option String
  | [], prev => ([], prev)
  | p :: rest, prev =>
      if isMetaPart p then emitParts asst turnId rest prev
      else
        match partToNode prev turnId asst p with
        | some n =>
            let r := emitParts asst turnId rest (some n.id)
            (n :: r.1, r.2)
        | none => emitParts asst turnId rest prev

/-- The per-turn assistant loop (graph.ts lines 318-396). -/
def emitAssistants (f : String → List OCPart) (turnId : String) :
    List OCMessage → Option String → List Node × Option String
  | [], prev => ([], prev)
  | a :: rest, prev =>
      let r₁ := emitParts a turnId (sortParts (f a.id)) prev
      let r₂ := emitAssistants f turnId rest r₁.2
      (r₁.1 ++ r₂.1, r₂.2)

/-- The joined, trimmed text of a turn anchor's text parts
(graph.ts lines 298-300). -/
def turnUserText (f : String → List OCPart) (u : OCMessage) : String :=
  jsTrim (String.intercalate "\n"
    (((sortParts (f u.id)).filter (fun p => p.type == "text")).map
      (fun p => p.text.getD "")))

/-- The anchor's user node, emitted when the joined text is non-empty
(graph.ts lines 302-315). -/
def turnUserNode (f : String → List OCPart) (u : OCMessage)
    (prev : Option String) : List Node × Option String :=
  if turnUserText f u ≠ "" then
    ([{ id := u.id, parentId := prev, nodeType := NodeType.user (turnUserText f u),
        timestamp := u.time.created, branchLevel := 0,
        source := some "opencode", turnId := some u.id,
        model := getModelId u }], some u.id)
  else ([], prev)

/-- One turn (graph.ts lines 294-397): the anchor's user node (if any), then
the turn's assistants. -/
def emitTurn (f : String → List OCPart) (turn : OCMessage × List OCMessage)
    (prev : Option String) : List Node × Option String :=
  let r₁ := turnUserNode f turn.1 prev
  let r₂ := emitAssistants f turn.1.id turn.2 r₁.2
  (r₁.1 ++ r₂.1, r₂.2)

/-- All turns in order, threading `prevNodeId` across turns. -/
def emitTurns (f : String → List OCPart) :
    List (OCMessage × List OCMessage) → Option String → List Node
  | [], _ => []
  | t :: rest, prev =>
      let r := emitTurn f t prev
      r.1 ++ emitTurns f rest r.2

/-- The messages sorted by creation time (graph.ts line 260; `Array.sort`
mutates, so every later use sees the sorted list). -/
def ocSorted (messages : List OCMessage) : List OCMessage :=
  List.insertionSort ocMsgLe messages

/-- The turn grouping (graph.ts lines 262-288): every user message is a turn
anchor; a turn's assistants are the assistant messages whose `parentID` is
the anchor's id (the `assistantByParent` map groups them in iteration order,
i.e. filter order), re-sorted by creation time. -/
def ocTurns (messages : List OCMessage) : List (OCMessage × List OCMessage) :=
  (List.insertionSort ocMsgLe
      ((ocSorted messages).filter (fun m => m.role == "user"))).map
    (fun u => (u, List.insertionSort ocMsgLe
      ((ocSorted messages).filter
        (fun m => m.role == "assistant" && m.parentID == some u.id))))

/-- Embedding of `buildOpenCodeGraph` (opencode graph.ts lines 253-412):
sort messages by creation time, group turns by anchor user message, emit the
linear node chain, derive edges, aggregate stats over assistant messages. -/
def buildOpenCodeGraph (messages : List OCMessage) (f : String → List OCPart) :
    Graph :=
  if messages.length = 0 then { nodes := [], edges := [], stats := emptyStats }
  else
    let nodes := emitTurns f (ocTurns messages) none
    let edges := nodes.filterMap (fun n =>
      match n.parentId with
      | some p => some { fromId := p, toId := n.id, isBranch := false }
      | none => none)
    let stats := computeStats
      (((ocSorted messages).filter (fun m => m.role == "assistant")).map
        (fun m => { usage := mapTokens m, model := getModelId m, cost := m.cost }))
    { nodes := nodes, edges := edges, stats := stats }

/-- Messages of the unsorted-output example: one turn anchor, one assistant. -/
def exC1Msgs : List OCMessage :=
  [{ id := "u1", role := "user", time := { created := 0 } },
   { id := "a1", role := "assistant", parentID := some "u1",
     time := { created := 10 } }]

/-- Parts of the unsorted-output example: the assistant part with the
smaller id carries the *later* start time. -/
def exC1Parts : String → List OCPart := fun mid =>
  if mid = "u1" then
    [{ id := "p0", type := "text", text := some "hi" }]
  else if mid = "a1" then
    [{ id := "a", type := "text", text := some "x",
       time := some { start := some 100 } },
     { id := "b", type := "text", text := some "y",
       time := some { start := some 50 } }]
  else []

/-- C1 counterexample: the part-store builder emits in part-id order without
a final timestamp sort, so the output timestamps `[0, 100, 50]` are not
non-decreasing — the claim fails for the opencode dialect. -/
theorem buildOpenCodeGraph_not_sorted :
    ((buildOpenCodeGraph exC1Msgs exC1Parts).nodes.map Node.timestamp
        = [0, 100, 50]) ∧
    ¬ List.Pairwise (fun a b : Node => a.timestamp ≤ b.timestamp)
        (buildOpenCodeGraph exC1Msgs exC1Parts).nodes := by
  have heq : (buildOpenCodeGraph exC1Msgs exC1Parts).nodes.map Node.timestamp
      = [0, 100, 50] := by decide
  refine ⟨heq, fun h => ?_⟩
  have hm : List.Pairwise (fun a b : Int => a ≤ b) [(0 : Int), 100, 50] := by
    rw [← heq]
    exact List.pairwise_map.2 h
  simp [List.pairwise_cons] at hm

/-- Messages of the orphan-assistant example: the assistant's `parentID`
names no user message. -/
def exC4Msgs : List OCMessage :=
  [{ id := "u1", role := "user", time := { created := 1 } },
   { id := "orphan", role := "assistant", parentID := some "zzz",
     time := { created := 2 } }]

/-- Parts of the orphan-assistant example. -/
def exC4Parts : String → List OCPart := fun mid =>
  if mid = "u1" then
    [{ id := "p0", type := "text", text := some "hi" }]
  else if mid = "orphan" then
    [{ id := "x1", type := "text", text := some "lost" }]
  else []

/-- C4 counterexample: the assistant message whose parent points at no turn
anchor contributes nothing — the graph holds only the user node, and the
orphan's part id `x1` appears nowhere; the node is discarded, not preserved. -/
theorem buildOpenCodeGraph_drops_orphan_assistant :
    ((buildOpenCodeGraph exC4Msgs exC4Parts).nodes.map Node.id = ["u1"]) ∧
    "x1" ∉ (buildOpenCodeGraph exC4Msgs exC4Parts).nodes.map Node.id := by
  constructor
  · decide
  · decide

lemma partToNode_id {prev : Option String} {tid : String} {asst : OCMessage}
    {p : OCPart} {n : Node} (h : partToNode prev tid asst p = some n) :
    n.id = p.id := by
  simp only [partToNode] at h
  repeat' split at h
  all_goals first
    | exact Option.noConfusion h
    | (injection h with h2; subst h2; rfl)

lemma emitParts_origin (asst : OCMessage) (tid : String) :
    ∀ (l : List OCPart) (prev : Option String) (n : Node),
      n ∈ (emitParts asst tid l prev).1 →
      ∃ p ∈ l, n.id = p.id ∧ isMetaPart p = false := by
  intro l
  induction l with
  | nil => intro prev n h; simp [emitParts] at h
  | cons p rest ih =>
      intro prev n h
      simp only [emitParts] at h
      by_cases hm : isMetaPart p = true
      · rw [if_pos hm] at h
        obtain ⟨q, hq, hid, hmet⟩ := ih _ _ h
        exact ⟨q, List.mem_cons_of_mem _ hq, hid, hmet⟩
      · rw [if_neg hm] at h
        cases hpn : partToNode prev tid asst p with
        | some n' =>
            rw [hpn] at h
            rcases List.mem_cons.1 h with rfl | h'
            · exact ⟨p, List.mem_cons_self _ _, partToNode_id hpn,
                by simpa using hm⟩
            · obtain ⟨q, hq, hid, hmet⟩ := ih _ _ h'
              exact ⟨q, List.mem_cons_of_mem _ hq, hid, hmet⟩
        | none =>
            rw [hpn] at h
            obtain ⟨q, hq, hid, hmet⟩ := ih _ _ h
            exact ⟨q, List.mem_cons_of_mem _ hq, hid, hmet⟩

lemma emitParts_ids (asst : OCMessage) (tid : String) :
    ∀ (l : List OCPart) (prev : Option String),
      ((emitParts asst tid l prev).1.map Node.id).Sublist (l.map OCPart.id) := by
  intro l
  induction l with
  | nil => intro prev; simp [emitParts]
  | cons p rest ih =>
      intro prev
      simp only [emitParts]
      by_cases hm : isMetaPart p = true
      · rw [if_pos hm]
        exact (ih _).cons _
      · rw [if_neg hm]
        cases hpn : partToNode prev tid asst p with
        | some n' =>
            simp only [List.map_cons]
            have hid := partToNode_id hpn
            rw [hid]
            exact List.Sublist.cons₂ _ (ih _)
        | none =>
            exact (ih _).cons _

lemma emitParts_sorted (asst : OCMessage) (tid : String) (prev : Option String)
    (parts : List OCPart) :
    List.Pairwise (fun a b : Node => a.id ≤ b.id)
      (emitParts asst tid (sortParts parts) prev).1 := by
  have hs : List.Pairwise ocPartLe (sortParts parts) :=
    List.sorted_insertionSort ocPartLe parts
  have hs' : List.Pairwise (fun a b : OCPart => a.id ≤ b.id) (sortParts parts) :=
    hs.imp (fun h => String.le_iff_toList_le.2 h)
  have hmap : List.Pairwise (fun x y : String => x ≤ y)
      ((sortParts parts).map OCPart.id) := List.pairwise_map.2 hs'
  have hsub := emitParts_ids asst tid (sortParts parts) prev
  exact List.pairwise_map.1 (List.Pairwise.sublist hsub hmap)

lemma sortParts_canonical (parts parts' : List OCPart)
    (hnodup : (parts.map OCPart.id).Nodup) (hperm : parts'.Perm parts) :
    sortParts parts' = sortParts parts := by
  have hp : (sortParts parts').Perm (sortParts parts) :=
    ((List.perm_insertionSort ocPartLe parts').trans hperm).trans
      (List.perm_insertionSort ocPartLe parts).symm
  have hnodup₂ : ((sortParts parts).map OCPart.id).Nodup :=
    (((List.perm_insertionSort ocPartLe parts).map OCPart.id).nodup_iff).2 hnodup
  have hnodup₁ : ((sortParts parts').map OCPart.id).Nodup :=
    ((hp.map OCPart.id).nodup_iff).2 hnodup₂
  have strict : ∀ l : List OCPart, List.Pairwise ocPartLe l →
      (l.map OCPart.id).Nodup → List.Pairwise ocPartLt l := by
    intro l hle hnd
    have hne : List.Pairwise (fun a b : OCPart => a.id ≠ b.id) l :=
      List.pairwise_map.1 hnd
    refine (hle.and hne).imp ?_
    rintro a b ⟨h₁, h₂⟩
    exact lt_of_le_of_ne h₁ (fun hc => h₂ (String.ext hc))
  have h₁ := strict _ (List.sorted_insertionSort ocPartLe parts') hnodup₁
  have h₂ := strict _ (List.sorted_insertionSort ocPartLe parts) hnodup₂
  exact List.eq_of_perm_of_sorted hp h₁ h₂

lemma emitAssistants_origin (f : String → List OCPart) (tid : String) :
    ∀ (assts : List OCMessage) (prev : Option String) (n : Node),
      n ∈ (emitAssistants f tid assts prev).1 →
      ∃ a ∈ assts, ∃ p ∈ f a.id, n.id = p.id := by
  intro assts
  induction assts with
  | nil => intro prev n h; simp [emitAssistants] at h
  | cons a rest ih =>
      intro prev n h
      simp only [emitAssistants] at h
      rcases List.mem_append.1 h with h' | h'
      · obtain ⟨p, hp, hid, _⟩ := emitParts_origin a tid _ _ n h'
        exact ⟨a, List.mem_cons_self _ _, p,
          (List.perm_insertionSort ocPartLe (f a.id)).subset hp, hid⟩
      · obtain ⟨a', ha', p, hp, hid⟩ := ih _ _ h'
        exact ⟨a', List.mem_cons_of_mem _ ha', p, hp, hid⟩

lemma turnUserNode_origin {f : String → List OCPart} {u : OCMessage}
    {prev : Option String} {n : Node} (h : n ∈ (turnUserNode f u prev).1) :
    n.id = u.id := by
  rw [turnUserNode] at h
  split_ifs at h
  · rw [List.eq_of_mem_singleton h]
  · simp at h

lemma emitTurns_origin (f : String → List OCPart) :
    ∀ (turns : List (OCMessage × List OCMessage)) (prev : Option String) (n : Node),
      n ∈ emitTurns f turns prev →
      ∃ t ∈ turns, n.id = t.1.id ∨ ∃ a ∈ t.2, ∃ p ∈ f a.id, n.id = p.id := by
  intro turns
  induction turns with
  | nil => intro prev n h; simp [emitTurns] at h
  | cons t rest ih =>
      intro prev n h
      simp only [emitTurns] at h
      rcases List.mem_append.1 h with h' | h'
      · simp only [emitTurn] at h'
        rcases List.mem_append.1 h' with h'' | h''
        · exact ⟨t, List.mem_cons_self _ _, Or.inl (turnUserNode_origin h'')⟩
        · obtain ⟨a, ha, p, hp, hid⟩ := emitAssistants_origin f t.1.id t.2 _ n h''
          exact ⟨t, List.mem_cons_self _ _, Or.inr ⟨a, ha, p, hp, hid⟩⟩
      · obtain ⟨t', ht', hcase⟩ := ih _ _ h'
        exact ⟨t', List.mem_cons_of_mem _ ht', hcase⟩

/-- C4 (amended): in the message/part-store dialect an assistant message
whose parent reference does not point at any turn anchor is *discarded*, not
preserved: every node of the built graph originates either from a user
message of the session (the turn anchor itself) or from a part of an
assistant message whose `parentID` is the id of some user message.  The
original claim is refuted by the counterexample. -/
theorem buildOpenCodeGraph_nodes_are_anchored (messages : List OCMessage)
    (f : String → List OCPart) (n : Node)
    (hn : n ∈ (buildOpenCodeGraph messages f).nodes) :
    (∃ u ∈ messages, u.role = "user" ∧ n.id = u.id) ∨
    (∃ a ∈ messages, a.role = "assistant" ∧
      (∃ u ∈ messages, u.role = "user" ∧ a.parentID = some u.id) ∧
      ∃ p ∈ f a.id, n.id = p.id) := by
  by_cases hempty : messages.length = 0
  · rw [buildOpenCodeGraph, if_pos hempty] at hn
    simp at hn
  · rw [buildOpenCodeGraph, if_neg hempty] at hn
    simp only at hn
    obtain ⟨t, ht, hcase⟩ := emitTurns_origin f (ocTurns messages) none n hn
    obtain ⟨u, hu, rfl⟩ := List.mem_map.1 ht
    have humem : u ∈ messages ∧ u.role = "user" := by
      have h₁ := (List.perm_insertionSort ocMsgLe _).subset hu
      obtain ⟨h₂, h₃⟩ := List.mem_filter.1 h₁
      exact ⟨(List.perm_insertionSort ocMsgLe messages).subset h₂,
        by simpa using h₃⟩
    rcases hcase with hid | ⟨a, ha, p, hp, hid⟩
    · exact Or.inl ⟨u, humem.1, humem.2, hid⟩
    · have hamem : a ∈ messages ∧ a.role = "assistant" ∧ a.parentID = some u.id := by
        have h₁ := (List.perm_insertionSort ocMsgLe _).subset ha
        obtain ⟨h₂, h₃⟩ := List.mem_filter.1 h₁
        rw [Bool.and_eq_true] at h₃
        refine ⟨(List.perm_insertionSort ocMsgLe messages).subset h₂, ?_, ?_⟩
        · simpa using h₃.1
        · simpa using h₃.2
      exact Or.inr ⟨a, hamem.1, hamem.2.1,
        ⟨u, humem.1, humem.2, hamem.2.2⟩, p, hp, hid⟩

/-- The single node of the orphan-assistant example, used by the witness. -/
def exC4UserNode : Node :=
  { id := "u1", parentId := none, nodeType := NodeType.user "hi",
    timestamp := 1, branchLevel := 0, source := some "opencode",
    turnId := some "u1", model := none }

/-- Witness for the amended C4 at a concrete graph and node. -/
theorem buildOpenCodeGraph_nodes_are_anchored_witness :
    (∃ u ∈ exC4Msgs, u.role = "user" ∧ exC4UserNode.id = u.id) ∨
    (∃ a ∈ exC4Msgs, a.role = "assistant" ∧
      (∃ u ∈ exC4Msgs, u.role = "user" ∧ a.parentID = some u.id) ∧
      ∃ p ∈ exC4Parts a.id, exC4UserNode.id = p.id) :=
  buildOpenCodeGraph_nodes_are_anchored exC4Msgs exC4Parts exC4UserNode (by decide)

/-- Messages of the part-order scenario: one anchor, one assistant. -/
def exC8Msgs : List OCMessage :=
  [{ id := "u1", role := "user", time := { created := 1 } },
   { id := "a1", role := "assistant", parentID := some "u1",
     time := { created := 2 } }]

/-- Parts of the part-order scenario, discovered out of lexicographic order:
`c` (patch), a step-start marker `d`, `a` (reasoning), `b` (text). -/
def exC8Parts : String → List OCPart := fun mid =>
  if mid = "u1" then
    [{ id := "p0", type := "text", text := some "hi" }]
  else if mid = "a1" then
    [{ id := "c", type := "patch", files := some ["f.txt"], hash := some "h1" },
     { id := "d", type := "step-start" },
     { id := "a", type := "reasoning", text := some "think" },
     { id := "b", type := "text", text := some "ans" }]
  else []

/-- C8: in the part-store dialect an assistant message's parts are emitted in
ascending lexicographic id order regardless of discovery order — the emitted
node ids are sorted, permuting the discovered parts (with distinct ids) does
not change the emission, every emitted node stems from a non-metadata part,
and in the concrete scenario the parts `a` (reasoning), `b` (text), `c`
(patch) discovered out of order are emitted as `a, b, c` with the step-start
marker skipped. -/
theorem opencode_parts_emitted_in_id_order :
    (∀ (asst : OCMessage) (tid : String) (prev : Option String)
        (parts : List OCPart),
        List.Pairwise (fun a b : Node => a.id ≤ b.id)
          (emitParts asst tid (sortParts parts) prev).1) ∧
    (∀ (asst : OCMessage) (tid : String) (prev : Option String)
        (parts parts' : List OCPart),
        (parts.map OCPart.id).Nodup → parts'.Perm parts →
        emitParts asst tid (sortParts parts') prev
          = emitParts asst tid (sortParts parts) prev) ∧
    (∀ (asst : OCMessage) (tid : String) (prev : Option String)
        (parts : List OCPart),
        ∀ n ∈ (emitParts asst tid (sortParts parts) prev).1,
          ∃ p ∈ parts, n.id = p.id ∧ isMetaPart p = false) ∧
    ((buildOpenCodeGraph exC8Msgs exC8Parts).nodes.map Node.id
        = ["u1", "a", "b", "c"]) ∧
    ((buildOpenCodeGraph exC8Msgs exC8Parts).nodes.map Node.nodeType
        = [NodeType.user "hi", NodeType.reasoning "think",
           NodeType.assistant "ans", NodeType.patch ["f.txt"] "h1"]) := by
  refine ⟨emitParts_sorted, ?_, ?_, by decide, by decide⟩
  · intro asst tid prev parts parts' hnodup hperm
    rw [sortParts_canonical parts parts' hnodup hperm]
  · intro asst tid prev parts n hn
    obtain ⟨p, hp, hid, hmet⟩ := emitParts_origin asst tid _ _ n hn
    exact ⟨p, (List.perm_insertionSort ocPartLe parts).subset hp, hid, hmet⟩

/-- A text part used by the part-order witness. -/
def exPa : OCPart := { id := "a", type := "reasoning", text := some "think" }

/-- Another text part used by the part-order witness. -/
def exPb : OCPart := { id := "b", type := "text", text := some "ans" }

/-- The assistant message used by the part-order witness. -/
def exC8Asst : OCMessage :=
  { id := "a1", role := "assistant", parentID := some "u1",
    time := { created := 2 } }

/-- Witness for C8: permuting two concrete parts does not change emission. -/
theorem opencode_parts_emitted_in_id_order_witness :
    emitParts exC8Asst "u1" (sortParts [exPb, exPa]) none
      = emitParts exC8Asst "u1" (sortParts [exPa, exPb]) none :=
  opencode_parts_emitted_in_id_order.2.1 exC8Asst "u1" none [exPa, exPb]
    [exPb, exPa] (by decide) (List.Perm.swap exPa exPb [])

/-! ## Concurrency lane packer (the claude-source `buildGraph`, steps 1-2)

The packer computes per-agent spans from the events (first pass) and then
greedily assigns 1-based lanes: scan lanes in index order, reuse the first
lane whose remembered end time is ≤ the agent's start, else open a new lane.
`packAgentsSp` keeps each agent's span alongside the assigned lane; the
source's `agentToBranch` map is its first/lane projection. -/

/-- An agent's `[start, end]` time span (`end` is a Lean keyword: `stop`). -/
structure Span where
  start : Int
  stop : Int
deriving Repr, DecidableEq

/-- One step of the span fold: widen the agent's span by one timestamp, or
open a fresh single-point span. -/
def updateSpan (m : List (String × Span)) (aid : String) (ts : Int) :
    List (String × Span) :=
  if m.any (fun p => p.1 == aid) then
    m.map (fun p =>
      if p.1 == aid then
        (p.1, { start := min p.2.start ts, stop := max p.2.stop ts })
      else p)
  else m ++ [(aid, { start := ts, stop := ts })]

/-- The `agentSpans` map (first-occurrence order) of the packer. -/
def agentSpans (events : List SessionEvent) : List (String × Span) :=
  events.foldl (fun m e =>
    match e.agentId with
    | some aid => updateSpan m aid e.timestamp
    | none => m) []

/-- Comparator of the packer's sort: ascending span start. -/
def spanLe (a b : String × Span) : Prop := a.2.start ≤ b.2.start

instance : DecidableRel spanLe := fun a b => Int.decLe a.2.start b.2.start

instance : IsTotal (String × Span) spanLe :=
  ⟨fun a b => Int.le_total a.2.start b.2.start⟩

instance : IsTrans (String × Span) spanLe :=
  ⟨fun _ _ _ h₁ h₂ => Int.le_trans h₁ h₂⟩

/-- The packer sorts the span entries by start time. -/
def sortSpans (l : List (String × Span)) : List (String × Span) :=
  List.insertionSort spanLe l

/-- First lane (by index) whose remembered end time is ≤ `start`. -/
def firstFit (lanes : List Int) (start : Int) : Option Nat :=
  match lanes with
  | [] => none
  | e :: rest => if e ≤ start then some 0 else (firstFit rest start).map (· + 1)

/-- The greedy lane loop, keeping each agent's span in the output; the lane
state holds each lane's last end time. -/
def packAgentsSp : List (String × Span) → List Int → List ((String × Span) × Nat)
  | [], _ => []
  | a :: rest, lanes =>
      match firstFit lanes a.2.start with
      | some i => (a, i + 1) :: packAgentsSp rest (lanes.set i a.2.stop)
      | none => (a, lanes.length + 1) :: packAgentsSp rest (lanes ++ [a.2.stop])

/-- The `agentToBranch` map: 1-based lane per agent id. -/
def agentToBranch (events : List SessionEvent) : List (String × Nat) :=
  (packAgentsSp (sortSpans (agentSpans events)) []).map (fun x => (x.1.1, x.2))

/-- Lane lookup (`agentToBranch.get(aid)`). -/
def branchOf (events : List SessionEvent) (aid : String) : Option Nat :=
  ((agentToBranch events).find? (fun p => p.1 == aid)).map (·.2)

/-- Span lookup (`agentSpans.get(aid)`). -/
def spanOf (events : List SessionEvent) (aid : String) : Option Span :=
  ((agentSpans events).find? (fun p => p.1 == aid)).map (·.2)

lemma updateSpan_wf {m : List (String × Span)} {aid : String} {ts : Int}
    (hm : ∀ p ∈ m, p.2.start ≤ p.2.stop) :
    ∀ p ∈ updateSpan m aid ts, p.2.start ≤ p.2.stop := by
  intro p hp
  rw [updateSpan] at hp
  split_ifs at hp
  · obtain ⟨q, hq, hqe⟩ := List.mem_map.1 hp
    by_cases hk : q.1 = aid
    · rw [if_pos (by simp [hk])] at hqe
      rw [← hqe]
      exact le_trans (min_le_left _ _) (le_trans (hm q hq) (le_max_left _ _))
    · rw [if_neg (by simp [hk])] at hqe
      rw [← hqe]
      exact hm q hq
  · rcases List.mem_append.1 hp with hp' | hp'
    · exact hm p hp'
    · rw [List.eq_of_mem_singleton hp']

lemma agentSpans_wf (events : List SessionEvent) :
    ∀ p ∈ agentSpans events, p.2.start ≤ p.2.stop := by
  rw [agentSpans]
  have hgen : ∀ (l : List SessionEvent) (m : List (String × Span)),
      (∀ p ∈ m, p.2.start ≤ p.2.stop) →
      ∀ p ∈ l.foldl (fun m e =>
        match e.agentId with
        | some aid => updateSpan m aid e.timestamp
        | none => m) m, p.2.start ≤ p.2.stop := by
    intro l
    induction l with
    | nil => intro m hm; exact hm
    | cons e rest ih =>
        intro m hm
        rw [List.foldl_cons]
        cases he : e.agentId with
        | some aid => exact ih _ (updateSpan_wf hm)
        | none => exact ih _ hm
  exact hgen events [] (by simp)

lemma updateSpan_fst_map (m : List (String × Span)) (aid : String) (ts : Int) :
    (updateSpan m aid ts).map Prod.fst =
      if m.any (fun p => p.1 == aid) then m.map Prod.fst
      else m.map Prod.fst ++ [aid] := by
  rw [updateSpan]
  split_ifs
  · rw [List.map_map]
    refine List.map_congr_left ?_
    intro p _
    by_cases hk : p.1 = aid
    · simp [Function.comp, hk]
    · simp [Function.comp, hk]
  · simp

lemma updateSpan_keys_nodup {m : List (String × Span)} {aid : String} {ts : Int}
    (hm : (m.map Prod.fst).Nodup) :
    ((updateSpan m aid ts).map Prod.fst).Nodup := by
  rw [updateSpan_fst_map]
  split_ifs with hany
  · exact hm
  · rw [List.nodup_append]
    refine ⟨hm, List.nodup_singleton _, ?_⟩
    intro k hk hk'
    rw [List.mem_singleton] at hk'
    obtain ⟨p, hp, hpk⟩ := List.mem_map.1 hk
    refine hany (List.any_eq_true.2 ⟨p, hp, ?_⟩)
    rw [hpk, hk']
    simp

lemma agentSpans_keys_nodup (events : List SessionEvent) :
    ((agentSpans events).map Prod.fst).Nodup := by
  rw [agentSpans]
  have hgen : ∀ (l : List SessionEvent) (m : List (String × Span)),
      (m.map Prod.fst).Nodup →
      ((l.foldl (fun m e =>
        match e.agentId with
        | some aid => updateSpan m aid e.timestamp
        | none => m) m).map Prod.fst).Nodup := by
    intro l
    induction l with
    | nil => intro m hm; exact hm
    | cons e rest ih =>
        intro m hm
        rw [List.foldl_cons]
        cases he : e.agentId with
        | some aid => exact ih _ (updateSpan_keys_nodup hm)
        | none => exact ih _ hm
  exact hgen events [] (by simp)

lemma firstFit_spec :
    ∀ (lanes : List Int) (s : Int) (i : Nat), firstFit lanes s = some i →
      ∃ e, lanes[i]? = some e ∧ e ≤ s := by
  intro lanes
  induction lanes with
  | nil => intro s i h; simp [firstFit] at h
  | cons e rest ih =>
      intro s i h
      rw [firstFit] at h
      split_ifs at h with he
      · obtain rfl : (0 : Nat) = i := by simpa using h
        exact ⟨e, by simp, he⟩
      · cases hr : firstFit rest s with
        | none => rw [hr] at h; simp at h
        | some j =>
            rw [hr] at h
            obtain rfl : j + 1 = i := by simpa using h
            obtain ⟨e', he', hle⟩ := ih s j hr
            exact ⟨e', by simpa using he', hle⟩

lemma packAgentsSp_mem :
    ∀ (agents : List (String × Span)) (lanes : List Int) (x : (String × Span) × Nat),
      x ∈ packAgentsSp agents lanes → x.1 ∈ agents := by
  intro agents
  induction agents with
  | nil => intro lanes x h; simp [packAgentsSp] at h
  | cons a rest ih =>
      intro lanes x h
      rw [packAgentsSp] at h
      cases hf : firstFit lanes a.2.start with
      | some i =>
          rw [hf] at h
          rcases List.mem_cons.1 h with rfl | h'
          · exact List.mem_cons_self _ _
          · exact List.mem_cons_of_mem _ (ih _ _ h')
      | none =>
          rw [hf] at h
          rcases List.mem_cons.1 h with rfl | h'
          · exact List.mem_cons_self _ _
          · exact List.mem_cons_of_mem _ (ih _ _ h')

lemma packAgentsSp_pos :
    ∀ (agents : List (String × Span)) (lanes : List Int) (x : (String × Span) × Nat),
      x ∈ packAgentsSp agents lanes → 1 ≤ x.2 := by
  intro agents
  induction agents with
  | nil => intro lanes x h; simp [packAgentsSp] at h
  | cons a rest ih =>
      intro lanes x h
      rw [packAgentsSp] at h
      cases hf : firstFit lanes a.2.start with
      | some i =>
          rw [hf] at h
          rcases List.mem_cons.1 h with rfl | h'
          · exact Nat.le_add_left 1 i
          · exact ih _ _ h'
      | none =>
          rw [hf] at h
          rcases List.mem_cons.1 h with rfl | h'
          · exact Nat.le_add_left 1 _
          · exact ih _ _ h'

lemma packAgentsSp_start_ge :
    ∀ (agents : List (String × Span)) (lanes : List Int),
      (∀ p ∈ agents, p.2.start ≤ p.2.stop) →
      ∀ x ∈ packAgentsSp agents lanes, ∀ e : Int,
        lanes[x.2 - 1]? = some e → e ≤ x.1.2.start := by
  intro agents
  induction agents with
  | nil => intro lanes _ x h; simp [packAgentsSp] at h
  | cons a rest ih =>
      intro lanes hwf x hx e he
      have hwf' : ∀ p ∈ rest, p.2.start ≤ p.2.stop :=
        fun p hp => hwf p (List.mem_cons_of_mem _ hp)
      have ha : a.2.start ≤ a.2.stop := hwf a (List.mem_cons_self _ _)
      rw [packAgentsSp] at hx
      cases hf : firstFit lanes a.2.start with
      | some i =>
          rw [hf] at hx
          obtain ⟨e₀, he₀, hle₀⟩ := firstFit_spec lanes a.2.start i hf
          rcases List.mem_cons.1 hx with rfl | hx'
          · have hidx : (a, i + 1).2 - 1 = i := by
              show i + 1 - 1 = i
              omega
            rw [hidx, he₀] at he
            obtain rfl : e₀ = e := Option.some_injective _ he
            exact hle₀
          · by_cases hji : x.2 - 1 = i
            · have hlen : i < lanes.length := by
                rcases List.getElem?_eq_some.1 he₀ with ⟨hlt, _⟩
                exact hlt
              have hset : (lanes.set i a.2.stop)[x.2 - 1]? = some a.2.stop := by
                rw [hji]
                exact List.getElem?_set_eq hlen
              have h₁ : a.2.stop ≤ x.1.2.start := ih _ hwf' x hx' _ hset
              rw [hji, he₀] at he
              obtain rfl : e₀ = e := Option.some_injective _ he
              exact le_trans hle₀ (le_trans ha h₁)
            · have hset : (lanes.set i a.2.stop)[x.2 - 1]? = lanes[x.2 - 1]? :=
                List.getElem?_set_ne (fun hc => hji hc.symm)
              exact ih _ hwf' x hx' e (by rw [hset, he])
      | none =>
          rw [hf] at hx
          rcases List.mem_cons.1 hx with rfl | hx'
          · have hidx : (a, lanes.length + 1).2 - 1 = lanes.length := by
              show lanes.length + 1 - 1 = lanes.length
              omega
            rw [hidx, List.getElem?_eq_none (le_refl lanes.length)] at he
            exact Option.noConfusion he
          · have hlen : x.2 - 1 < lanes.length := by
              rcases List.getElem?_eq_some.1 he with ⟨hlt, _⟩
              exact hlt
            have happ : (lanes ++ [a.2.stop])[x.2 - 1]? = lanes[x.2 - 1]? := by
              rw [List.getElem?_append]
              rw [if_pos hlen]
            exact ih _ hwf' x hx' e (by rw [happ, he])

lemma packAgentsSp_chain :
    ∀ (agents : List (String × Span)) (lanes : List Int),
      (∀ p ∈ agents, p.2.start ≤ p.2.stop) →
      List.Pairwise (fun x y : (String × Span) × Nat =>
        x.2 = y.2 → x.1.2.stop ≤ y.1.2.start) (packAgentsSp agents lanes) := by
  intro agents
  induction agents with
  | nil => intro lanes _; simp [packAgentsSp]
  | cons a rest ih =>
      intro lanes hwf
      have hwf' : ∀ p ∈ rest, p.2.start ≤ p.2.stop :=
        fun p hp => hwf p (List.mem_cons_of_mem _ hp)
      rw [packAgentsSp]
      cases hf : firstFit lanes a.2.start with
      | some i =>
          obtain ⟨e₀, he₀, _⟩ := firstFit_spec lanes a.2.start i hf
          have hlen : i < lanes.length := by
            rcases List.getElem?_eq_some.1 he₀ with ⟨hlt, _⟩
            exact hlt
          refine List.pairwise_cons.2 ⟨?_, ih _ hwf'⟩
          intro y hy heq
          have hset : (lanes.set i a.2.stop)[y.2 - 1]? = some a.2.stop := by
            have hidx : y.2 - 1 = i := by
              rw [← heq]
              show i + 1 - 1 = i
              omega
            rw [hidx]
            exact List.getElem?_set_eq hlen
          exact packAgentsSp_start_ge rest _ hwf' y hy a.2.stop hset
      | none =>
          refine List.pairwise_cons.2 ⟨?_, ih _ hwf'⟩
          intro y hy heq
          have happ : (lanes ++ [a.2.stop])[y.2 - 1]? = some a.2.stop := by
            have hidx : y.2 - 1 = lanes.length := by
              rw [← heq]
              show lanes.length + 1 - 1 = lanes.length
              omega
            rw [hidx]
            exact List.getElem?_concat_length lanes a.2.stop
          exact packAgentsSp_start_ge rest _ hwf' y hy a.2.stop happ

lemma assoc_value_unique {α : Type} {l : List (String × α)}
    (hnodup : (l.map Prod.fst).Nodup) {k : String} {v₁ v₂ : α}
    (h₁ : (k, v₁) ∈ l) (h₂ : (k, v₂) ∈ l) : v₁ = v₂ := by
  have := List.inj_on_of_nodup_map hnodup h₁ h₂ rfl
  exact congrArg Prod.snd this

/-- Events of the disjoint-span scenario: agent A over `[1,2]`, agent B over
`[3,4]`. -/
def exC3Disjoint : List SessionEvent :=
  [{ agentId := some "A", type := "progress", timestamp := 1 },
   { agentId := some "A", type := "progress", timestamp := 2 },
   { agentId := some "B", type := "progress", timestamp := 3 },
   { agentId := some "B", type := "progress", timestamp := 4 }]

/-- Events of the overlapping-span scenario: agent A over `[1,5]`, agent B
over `[2,3]`. -/
def exC3Overlap : List SessionEvent :=
  [{ agentId := some "A", type := "progress", timestamp := 1 },
   { agentId := some "A", type := "progress", timestamp := 5 },
   { agentId := some "B", type := "progress", timestamp := 2 },
   { agentId := some "B", type := "progress", timestamp := 3 }]

/-- C3: the lane packer gives every agent a 1-based lane; two distinct agents
on the same lane never have overlapping spans (overlap in the sense of the
packer's reuse rule: a lane is free iff its end ≤ the next start); and in the
concrete scenarios, disjoint spans `[1,2]`/`[3,4]` share lane 1 while
overlapping spans `[1,5]`/`[2,3]` get lanes 1 and 2. -/
theorem lanePacker_no_overlap :
    (∀ (events : List SessionEvent) (a b : String) (la lb : Nat) (sa sb : Span),
        a ≠ b → branchOf events a = some la → branchOf events b = some lb →
        la = lb → spanOf events a = some sa → spanOf events b = some sb →
        sa.stop ≤ sb.start ∨ sb.stop ≤ sa.start) ∧
    (∀ (events : List SessionEvent) (a : String) (la : Nat),
        branchOf events a = some la → 1 ≤ la) ∧
    (branchOf exC3Disjoint "A" = some 1 ∧ branchOf exC3Disjoint "B" = some 1) ∧
    (branchOf exC3Overlap "A" = some 1 ∧ branchOf exC3Overlap "B" = some 2) := by
  have hfind : ∀ (events : List SessionEvent) (aid : String) (l : Nat),
      branchOf events aid = some l →
      ∃ sp, ((aid, sp), l) ∈ packAgentsSp (sortSpans (agentSpans events)) [] ∧
        (aid, sp) ∈ agentSpans events := by
    intro events aid l h
    rw [branchOf] at h
    cases hf : (agentToBranch events).find? (fun p => p.1 == aid) with
    | none => rw [hf] at h; exact Option.noConfusion h
    | some q =>
        rw [hf] at h
        have hq : q ∈ agentToBranch events := List.mem_of_find?_eq_some hf
        have hqk : q.1 = aid := by simpa using List.find?_some hf
        have hql : q.2 = l := by simpa using h
        rw [agentToBranch] at hq
        obtain ⟨x, hx, hxe⟩ := List.mem_map.1 hq
        refine ⟨x.1.2, ?_, ?_⟩
        · have h₁ : x.1.1 = aid := by rw [← hqk, ← hxe]
          have h₂ : x.2 = l := by rw [← hql, ← hxe]
          have : ((x.1.1, x.1.2), x.2) = x := rfl
          rw [← h₁, ← h₂]
          rw [this]
          exact hx
        · have h₁ : x.1.1 = aid := by rw [← hqk, ← hxe]
          have hmem := packAgentsSp_mem _ _ _ hx
          have := (List.perm_insertionSort spanLe (agentSpans events)).subset hmem
          rw [← h₁]
          have hxx : (x.1.1, x.1.2) = x.1 := rfl
          rw [hxx]
          exact this
  have hspan : ∀ (events : List SessionEvent) (aid : String) (sp : Span),
      spanOf events aid = some sp → (aid, sp) ∈ agentSpans events := by
    intro events aid sp h
    rw [spanOf] at h
    cases hf : (agentSpans events).find? (fun p => p.1 == aid) with
    | none => rw [hf] at h; exact Option.noConfusion h
    | some q =>
        rw [hf] at h
        have hq : q ∈ agentSpans events := List.mem_of_find?_eq_some hf
        have hqk : q.1 = aid := by simpa using List.find?_some hf
        have hqv : q.2 = sp := by simpa using h
        have : (aid, sp) = q := by
          rw [← hqk, ← hqv]
        rw [this]
        exact hq
  refine ⟨?_, ?_, ⟨by decide, by decide⟩, ⟨by decide, by decide⟩⟩
  · intro events a b la lb sa sb hab hba hbb hlane hsa hsb
    obtain ⟨spa, hpa, hma⟩ := hfind events a la hba
    obtain ⟨spb, hpb, hmb⟩ := hfind events b lb hbb
    have hka := agentSpans_keys_nodup events
    have hspa : spa = sa := assoc_value_unique hka hma (hspan events a sa hsa)
    have hspb : spb = sb := assoc_value_unique hka hmb (hspan events b sb hsb)
    rw [hspa] at hpa
    rw [hspb] at hpb
    have hwf : ∀ p ∈ sortSpans (agentSpans events), p.2.start ≤ p.2.stop :=
      fun p hp => agentSpans_wf events p
        ((List.perm_insertionSort spanLe (agentSpans events)).subset hp)
    have hchain := packAgentsSp_chain (sortSpans (agentSpans events)) [] hwf
    have hsym : Symmetric (fun x y : (String × Span) × Nat =>
        x.2 = y.2 → x.1.2.stop ≤ y.1.2.start ∨ y.1.2.stop ≤ x.1.2.start) := by
      intro x y h heq
      rcases h heq.symm with h' | h'
      · exact Or.inr h'
      · exact Or.inl h'
    have hchain' : List.Pairwise (fun x y : (String × Span) × Nat =>
        x.2 = y.2 → x.1.2.stop ≤ y.1.2.start ∨ y.1.2.stop ≤ x.1.2.start)
        (packAgentsSp (sortSpans (agentSpans events)) []) :=
      hchain.imp (fun h heq => Or.inl (h heq))
    have hne : ((a, sa), la) ≠ ((b, sb), lb) := by
      intro hc
      exact hab (congrArg (fun z => z.1.1) hc)
    have := List.Pairwise.forall hsym hchain' hpa hpb hne hlane
    exact this
  · intro events a la h
    obtain ⟨sp, hp, _⟩ := hfind events a la h
    exact packAgentsSp_pos _ _ _ hp

/-- Witness for C3: the two disjoint-span agents share lane 1 and their
spans do not overlap. -/
theorem lanePacker_no_overlap_witness :
    (({ start := 1, stop := 2 } : Span).stop ≤ ({ start := 3, stop := 4 } : Span).start ∨
      ({ start := 3, stop := 4 } : Span).stop ≤ ({ start := 1, stop := 2 } : Span).start) ∧
    (1 : Nat) ≤ 1 :=
  ⟨lanePacker_no_overlap.1 exC3Disjoint "A" "B" 1 1 ⟨1, 2⟩ ⟨3, 4⟩
      (by decide) (by decide) (by decide) rfl (by decide) (by decide),
    lanePacker_no_overlap.2.1 exC3Disjoint "A" 1 (by decide)⟩

end Vizier
